import Mathlib

set_option maxHeartbeats 1000000

/-!
Shallow embedding of `slamdunk/dunks/tcounter.py` (functions `computeTconversions`
and `collapse`) together with the external record types they consume.  Machine
integers are modelled as `Int`/`Nat` (Python integers are unbounded), Python
`float` arithmetic on ratios is modelled over `ℚ`, fallible paths (Python
exceptions) return `Except`.
-/

/-- Direction of an aligned read (`ReadDirection` of the external read classifier). -/
inductive ReadDirection
  | Forward
  | Reverse
deriving DecidableEq

/-- One mismatch of a read.  In the source, `mismatch.isTCMismatch(isReverse)`
is a method of the external classifier taking the read direction; we model its
two possible answers as two stored booleans. -/
structure Mismatch where
  referencePosition : Int
  isTCOnForward : Bool
  isTCOnReverse : Bool
deriving DecidableEq

/-- `mismatch.isTCMismatch(read.direction == ReadDirection.Reverse)`. -/
def Mismatch.isTCMismatch (m : Mismatch) (isReverse : Bool) : Bool :=
  if isReverse then m.isTCOnReverse else m.isTCOnForward

/-- A read as yielded by `testFile.readInRegion(...)` (external collaborator).
`conversionRates`/`tcRate` are carried only because the strict branch clears
them; nothing in `computeTconversions` reads them afterwards. -/
structure SlamRead where
  direction : ReadDirection
  startRefPos : Int
  endRefPos : Int
  mismatches : List Mismatch
  tcCount : Nat
  isTcRead : Bool
  isMultimapper : Bool
  conversionRates : ℚ
  tcRate : ℚ
deriving DecidableEq

/-- Convenience constructor for reads without mismatch data. -/
def mkRead (d : ReadDirection) (s e : Int) (ms : List Mismatch) (tcc : Nat)
    (isTc mm : Bool) : SlamRead :=
  { direction := d, startRefPos := s, endRefPos := e, mismatches := ms,
    tcCount := tcc, isTcRead := isTc, isMultimapper := mm,
    conversionRates := 0, tcRate := 0 }

/-- Lines 164-169: with `strictTCs`, a non-TC read has its conversion-related
fields overwritten before counting. -/
def applyStrict (strictTCs : Bool) (r : SlamRead) : SlamRead :=
  if !r.isTcRead && strictTCs then
    { r with tcCount := 0, mismatches := [], conversionRates := 0, tcRate := 0 }
  else r

/-- `l[i] += 1` on a Python list: out-of-range indices never occur in the
source (they are guarded); we make the operation a no-op there. -/
def listInc : List Nat → Nat → List Nat
  | [], _ => []
  | x :: xs, 0 => (x + 1) :: xs
  | x :: xs, n + 1 => x :: listInc xs n

/-- Lines 184-186: bump `tcCountUtr` at every strand-correct conversion
mismatch whose reference position lies in `[0, utr.getLength())`. -/
def applyMismatches (len : Nat) (isReverse : Bool) : List Mismatch → List Nat → List Nat
  | [], tc => tc
  | m :: ms, tc =>
      applyMismatches len isReverse ms
        (if m.isTCMismatch isReverse = true ∧ 0 ≤ m.referencePosition ∧
            m.referencePosition < (len : Int) then
          listInc tc m.referencePosition.toNat
        else tc)

/-- Lines 188-190 unrolled: `cnt` remaining loop steps, current index `s`. -/
def applyCoverageAux (len : Nat) : Int → Nat → List Nat → List Nat
  | _, 0, cov => cov
  | s, cnt + 1, cov =>
      applyCoverageAux len (s + 1) cnt
        (if 0 ≤ s ∧ s < (len : Int) then listInc cov s.toNat else cov)

/-- Lines 188-190: `for i in xrange(read.startRefPos, read.endRefPos)` bump
`coverageUtr[i]` for in-range `i`. -/
def applyCoverage (len : Nat) (s e : Int) (cov : List Nat) : List Nat :=
  applyCoverageAux len s (e - s).toNat cov

/-- The per-interval mutable state of the read loop (lines 151-160). -/
structure ScanState where
  tcCountUtr : List Nat
  coverageUtr : List Nat
  countFwd : Nat
  tcCountFwd : Nat
  countRev : Nat
  tCountRev : Nat
  multiMapFwd : Nat
  multiMapRev : Nat
deriving DecidableEq

/-- Lines 151-160: zero-filled arrays of the interval's length, zero counters. -/
def initScan (len : Nat) : ScanState :=
  { tcCountUtr := List.replicate len 0
    coverageUtr := List.replicate len 0
    countFwd := 0, tcCountFwd := 0, countRev := 0, tCountRev := 0
    multiMapFwd := 0, multiMapRev := 0 }

/-- Lines 162-190: fold one read into the state. -/
def processRead (strictTCs : Bool) (len : Nat) (st : ScanState) (r0 : SlamRead) : ScanState :=
  let r := applyStrict strictTCs r0
  let st :=
    if r.direction = ReadDirection.Reverse then
      { st with countRev := st.countRev + 1
                tCountRev := st.tCountRev + (if r.tcCount > 0 then 1 else 0)
                multiMapRev := st.multiMapRev + (if r.isMultimapper then 1 else 0) }
    else
      { st with countFwd := st.countFwd + 1
                tcCountFwd := st.tcCountFwd + (if r.tcCount > 0 then 1 else 0)
                multiMapFwd := st.multiMapFwd + (if r.isMultimapper then 1 else 0) }
  { st with
      tcCountUtr :=
        applyMismatches len (r.direction = ReadDirection.Reverse) r.mismatches st.tcCountUtr
      coverageUtr := applyCoverage len r.startRefPos r.endRefPos st.coverageUtr }

/-- The whole read loop of one interval. -/
def scanReads (strictTCs : Bool) (len : Nat) (reads : List SlamRead) : ScanState :=
  reads.foldl (processRead strictTCs len) (initScan len)

/-- An input interval with the data its scan consumes: the reads that
`readInRegion` yields and the interval reference sequence that
`readIterator.getRefSeq()` supplies (modelled total: the read source's
contract is to provide the bases of the interval region). -/
structure Utr where
  chromosome : String
  start : Int
  stop : Int
  strand : String
  name : String
  reads : List SlamRead
  refSeqIter : Nat → Char

/-- Modelled from the spec: `getLength` of the external BED entry; spec section 3
defines length = stop − start (a Python `[0] * n` with `n ≤ 0` is empty). -/
def Utr.getLength (u : Utr) : Nat := (u.stop - u.start).toNat

/-- Modelled from the spec: `hasStrand` of the external BED entry; spec sections
2-3 make strand a mandatory `+`/`-` annotation, anything else counts as missing. -/
def Utr.hasStrand (u : Utr) : Bool := u.strand = "+" || u.strand = "-"

/-- The reference FASTA: an association of chromosome names to sequences. -/
abbrev RefFile := List (String × String)

/-- Membership test `utr.chromosome in list(referenceFile.references)` plus the
sequence it would serve. -/
def refLookup (refs : RefFile) (c : String) : Option String :=
  (refs.find? (fun p => p.1 = c)).map Prod.snd

/-- `referenceFile.fetch(region=chrom:start+1-stop)`: 0-based half-open
`[start, stop)` slice of the chromosome sequence. -/
def fetchRegion (seq : String) (start stop : Int) : List Char :=
  (seq.data.drop start.toNat).take (stop - start).toNat

/-- Python `.upper()`. -/
def upperChars (l : List Char) : List Char := l.map Char.toUpper

/-- Python `str.count(c)` for a single character. -/
def countChar (c : Char) (l : List Char) : Nat := (l.filter (fun x => x = c)).length

/-- Lines 139-147: `Tcontent` as recomputed from the reference; 0 when the
chromosome is absent from the reference. -/
def computeTcontent (refs : RefFile) (u : Utr) : Nat :=
  match refLookup refs u.chromosome with
  | none => 0
  | some seq =>
      let refSeq := upperChars (fetchRegion seq u.start u.stop)
      if u.strand = "-" then countChar 'A' refSeq else countChar 'T' refSeq

/-- Decimal digits of a natural number, fuelled structural version of the
usual div-10 recursion (`fuel = n + 1` always suffices). -/
def natToDigitsAux : Nat → Nat → List Char → List Char
  | 0, _, acc => acc
  | fuel + 1, n, acc =>
      let d := Char.ofNat (48 + n % 10)
      if n < 10 then d :: acc else natToDigitsAux fuel (n / 10) (d :: acc)

/-- Decimal digit string of a natural number (models Python `str(int)` for
non-negative values). -/
def natToDigits (n : Nat) : List Char := natToDigitsAux (n + 1) n []

/-- Python `str(int)`. -/
def intToStr (n : Int) : String :=
  if n < 0 then "-" ++ String.mk (natToDigits (-n).toNat) else String.mk (natToDigits n.toNat)

/-- Textual form of a rate.  Stands in for Python's float rendering; none of
the bedgraph claims depend on the rate's exact textual shape, only on the
separators around it. -/
def ratToStr (q : ℚ) : String :=
  if q.den = 1 then intToStr q.num else intToStr q.num ++ "/" ++ String.mk (natToDigits q.den)

/-- Line 235: the accumulator key `utr.chromosome + ":" + str(utr.start + position) + ":" + str(utr.strand)`. -/
def mkBedgraphKey (chrom : String) (pos : Int) (strand : String) : String :=
  chrom ++ ":" ++ intToStr pos ++ ":" ++ strand

/-- Line 194: `x * 100.0 / y if y > 0 else 0` for position `i`. -/
def tcRateAt (tc cov : List Nat) (i : Nat) : ℚ :=
  if cov.getD i 0 > 0 then (tc.getD i 0 : ℚ) * 100 / (cov.getD i 0 : ℚ) else 0

/-- State of the summary loop over positions (lines 212-237). -/
structure TallyState where
  coveredTcount : Nat
  avgConversationRate : ℚ
  coveredPositions : Nat
  coverageOnTs : Nat
  conversionsOnTs : Nat
  bedgraphUpdates : List (String × ℚ)
deriving DecidableEq

/-- Lines 219-237: one position of the summary loop. -/
def tallyStep (u : Utr) (tc cov : List Nat) (st : TallyState) (position : Nat) : TallyState :=
  let st :=
    if cov.getD position 0 > 0 ∧
        ((u.strand = "+" ∧ u.refSeqIter position = 'T') ∨
         (u.strand = "-" ∧ u.refSeqIter position = 'A')) then
      { st with coveredTcount := st.coveredTcount + 1
                avgConversationRate := st.avgConversationRate + tcRateAt tc cov position
                coverageOnTs := st.coverageOnTs + cov.getD position 0
                conversionsOnTs := st.conversionsOnTs + tc.getD position 0
                bedgraphUpdates := st.bedgraphUpdates ++
                  [(mkBedgraphKey u.chromosome (u.start + position) u.strand,
                    tcRateAt tc cov position)] }
    else st
  if cov.getD position 0 > 0 then { st with coveredPositions := st.coveredPositions + 1 } else st

/-- The whole summary loop `for position in xrange(0, len(coverageUtr))`. -/
def runTally (u : Utr) (tc cov : List Nat) : TallyState :=
  (List.range cov.length).foldl (tallyStep u tc cov) ⟨0, 0, 0, 0, 0, []⟩

/-- Modelled from the spec: the `SlamSeqInterval` record of the external
`SlamSeqFile` module; field order follows the summary-table column order of
spec section 6 (which matches the positional constructor calls at lines 130
and 255). -/
structure SlamSeqInterval where
  chromosome : String
  start : Int
  stop : Int
  strand : String
  name : String
  Tcontent : Nat
  readsCPM : ℚ
  coverageOnTs : Int
  conversionsOnTs : Int
  conversionRate : ℚ
  readCount : Nat
  tcReadCount : Nat
  multimapCount : Nat
deriving DecidableEq

/-- The ways `computeTconversions` terminates a sample's run abnormally. -/
inductive TcountError
  | wrongBamVersion (found : String)
  | noStrand
  | negativeStart
  | strandWarningTypeError
deriving DecidableEq

/-- Line 205: more reads support the opposite strand than the annotated one. -/
def warnCond (u : Utr) (st : ScanState) : Prop :=
  (u.strand = "-" ∧ st.countFwd > st.countRev) ∨ (u.strand = "+" ∧ st.countRev > st.countFwd)

instance (u : Utr) (st : ScanState) : Decidable (warnCond u st) := by
  unfold warnCond; infer_instance

/-- Lines 128-258: processing of one interval.  Note two faithful oddities of
the source: the default record built at line 130 (before `Tcontent` is
computed) uses `-1` for `coverageOnTs` and `0` for `Tcontent`; and the warning
print at line 206 concatenates Python `str + int`, which raises `TypeError`
and aborts the run (modelled as `strandWarningTypeError`).  Likewise the
message of the negative-start `RuntimeError` concatenates `str + object`, but
the run aborts either way. -/
def processUtr (strictTCs : Bool) (readNumber : Nat) (refs : RefFile) (u : Utr) :
    Except TcountError (SlamSeqInterval × List (String × ℚ)) :=
  if ¬ u.hasStrand then Except.error TcountError.noStrand
  else if u.start < 0 then Except.error TcountError.negativeStart
  else
    let Tcontent := computeTcontent refs u
    let st := scanReads strictTCs u.getLength u.reads
    if (u.strand = "+" ∧ st.countFwd > 0) ∨ (u.strand = "-" ∧ st.countRev > 0) then
      let readCount := if u.strand = "-" then st.countRev else st.countFwd
      let tcReadCount := if u.strand = "-" then st.tCountRev else st.tcCountFwd
      let multiMapCount := if u.strand = "-" then st.multiMapRev else st.multiMapFwd
      if warnCond u st then Except.error TcountError.strandWarningTypeError
      else
        let t := runTally u st.tcCountUtr st.coverageUtr
        let readsCPM : ℚ := if readNumber > 0 then (readCount : ℚ) * 1000000 / (readNumber : ℚ) else 0
        let conversionRate : ℚ :=
          if t.coverageOnTs > 0 then (t.conversionsOnTs : ℚ) / (t.coverageOnTs : ℚ) else 0
        Except.ok
          ({ chromosome := u.chromosome, start := u.start, stop := u.stop,
             strand := u.strand, name := u.name, Tcontent := Tcontent,
             readsCPM := readsCPM, coverageOnTs := (t.coverageOnTs : Int),
             conversionsOnTs := (t.conversionsOnTs : Int),
             conversionRate := conversionRate, readCount := readCount,
             tcReadCount := tcReadCount, multimapCount := multiMapCount },
           t.bedgraphUpdates)
    else
      Except.ok
        ({ chromosome := u.chromosome, start := u.start, stop := u.stop,
           strand := u.strand, name := u.name, Tcontent := 0, readsCPM := 0,
           coverageOnTs := -1, conversionsOnTs := 0, conversionRate := 0,
           readCount := 0, tcReadCount := 0, multimapCount := 0 }, [])

/-- Python dict assignment `conversionBedGraph[key] = rate` on an
insertion-ordered association list: overwrite in place, else append. -/
def bgInsert (acc : List (String × ℚ)) (k : String) (v : ℚ) : List (String × ℚ) :=
  if acc.any (fun e => e.1 = k) then
    acc.map (fun e => if e.1 = k then (k, v) else e)
  else acc ++ [(k, v)]

/-- Dict lookup. -/
def bgLookup (acc : List (String × ℚ)) (k : String) : Option ℚ :=
  (acc.find? (fun e => e.1 = k)).map Prod.snd

/-- The keys of the accumulator are pairwise distinct. -/
def keysNodup (acc : List (String × ℚ)) : Prop := (acc.map Prod.fst).Nodup

/-- Result of a sample's run: the rows printed so far, the bedgraph
accumulator, and the error (if any) that stopped the interval loop. -/
structure RunResult where
  rows : List SlamSeqInterval
  bedgraph : List (String × ℚ)
  error : Option TcountError
deriving DecidableEq

/-- The interval loop of `computeTconversions`: intervals are processed in
order and a raised exception stops the loop, keeping the rows already emitted. -/
def runUtrsAux (strictTCs : Bool) (readNumber : Nat) (refs : RefFile) :
    List Utr → List SlamSeqInterval → List (String × ℚ) → RunResult
  | [], rows, acc => ⟨rows, acc, none⟩
  | u :: rest, rows, acc =>
      match processUtr strictTCs readNumber refs u with
      | Except.error e => ⟨rows, acc, some e⟩
      | Except.ok (row, updates) =>
          runUtrsAux strictTCs readNumber refs rest (rows ++ [row])
            (updates.foldl (fun a kv => bgInsert a kv.1 kv.2) acc)

/-- Lines 105-265: `computeTconversions` up to bedgraph finalization.  The BAM
version check of lines 123-124 happens before any interval is read. -/
def computeTconversions (bamVersion expectedBamVersion : String) (strictTCs : Bool)
    (readNumber : Nat) (refs : RefFile) (utrs : List Utr) : RunResult :=
  if bamVersion ≠ expectedBamVersion then ⟨[], [], some (TcountError.wrongBamVersion bamVersion)⟩
  else runUtrsAux strictTCs readNumber refs utrs [] []

/-- Python `str.split(c)` on character lists. -/
def splitOnChar (c : Char) : List Char → List (List Char)
  | [] => [[]]
  | x :: xs =>
      match splitOnChar c xs with
      | [] => [[]]
      | y :: ys => if x = c then [] :: y :: ys else (x :: y) :: ys

/-- `position.split(":")` at line 271. -/
def pySplitColon (s : String) : List String := (splitOnChar ':' s.data).map String.mk

/-- Python `int(s)` on a string of decimal digits (the only shape the source
feeds it, barring the mis-parsing amended in the bedgraph claim; on other
strings Python would raise `ValueError`). -/
def pyParseNat (l : List Char) : Nat := l.foldl (fun a c => a * 10 + (c.toNat - 48)) 0

/-- Lines 273/275: `print(pd[0], pd[1], int(pd[1]) + 1, rate, file=...)` —
`print` without a `sep` argument joins with single spaces. -/
def renderBedLine (pd : List String) (rate : ℚ) : String :=
  pd.getD 0 "" ++ " " ++ pd.getD 1 "" ++ " " ++
    intToStr ((pyParseNat (pd.getD 1 "").data : Int) + 1) ++ " " ++ ratToStr rate

/-- Lines 267-278: split the accumulator into the plus and minus bedgraph
files by the third `:`-separated field of the key. -/
def finalizeBedgraph (acc : List (String × ℚ)) : List String × List String :=
  acc.foldl
    (fun fs e =>
      let pd := pySplitColon e.1
      let line := renderBedLine pd e.2
      if pd.getD 2 "" = "+" then (fs.1 ++ [line], fs.2) else (fs.1, fs.2 ++ [line]))
    ([], [])

/-- Python `int(s)` for the numeric fields of a roll-up row: optional leading
minus then decimal digits (non-numeric text would raise `ValueError` in
Python; the roll-up claims only feed numeric fields). -/
def pyInt (s : String) : Int :=
  match s.data with
  | '-' :: rest => -(pyParseNat rest : Int)
  | l => (pyParseNat l : Int)

/-- The per-gene sums of `collapse` (lines 47-63). -/
structure GeneAgg where
  length : Int
  Tcontent : Int
  coverageOnTs : Int
  conversionsOnTs : Int
  readCount : Int
  tcReadCount : Int
  multimapCount : Int
deriving DecidableEq

/-- Field access `fields[i]` on a split row. -/
def fieldAt (fields : List String) (i : Nat) : String := fields.getD i ""

/-- The all-zero aggregate. -/
def zeroAgg : GeneAgg := ⟨0, 0, 0, 0, 0, 0, 0⟩

/-- Add one row's clamped fields to an aggregate (lines 48-54 / 57-63). -/
def bumpAgg (fields : List String) (g : GeneAgg) : GeneAgg :=
  let mx := fun i => max (pyInt (fieldAt fields i)) 0
  { length := g.length + mx 4, Tcontent := g.Tcontent + mx 8,
    coverageOnTs := g.coverageOnTs + mx 9, conversionsOnTs := g.conversionsOnTs + mx 10,
    readCount := g.readCount + mx 11, tcReadCount := g.tcReadCount + mx 12,
    multimapCount := g.multimapCount + mx 13 }

/-- Lines 33-65: fold one (already tab-split) input row into the dictionary
and the running `readNumber`.  A row of the wrong width changes nothing; the
raw, unclamped `int(readCount)` is added to `readNumber` (line 65). -/
def collapseStep (st : List (String × GeneAgg) × Int) (fields : List String) :
    List (String × GeneAgg) × Int :=
  if fields.length = 14 then
    let gene := fieldAt fields 3
    let dict :=
      if st.1.any (fun e => e.1 = gene) then
        st.1.map (fun e => if e.1 = gene then (gene, bumpAgg fields e.2) else e)
      else st.1 ++ [(gene, bumpAgg fields zeroAgg)]
    (dict, st.2 + pyInt (fieldAt fields 11))
  else st

/-- The accumulation pass of `collapse`. -/
def collapseScan (rows : List (List String)) : List (String × GeneAgg) × Int :=
  rows.foldl collapseStep ([], 0)

/-- Lines 33-68: the `else` at line 67 belongs to the `for` loop (a Python
`for ... else`), so exactly one format-error report is printed after the loop
finishes, about the *last* line's field count — whether or not any row was
malformed.  We record the reported field counts.  (On an empty input Python
would raise `NameError` on the unbound `fields`; the claims use non-empty
inputs.) -/
def collapseLog (rows : List (List String)) : List Nat :=
  match rows.getLast? with
  | none => []
  | some fields => [fields.length]

/-- Insertion into a list sorted by gene name (models `sorted(tcDict.keys())`;
only the multiset of emitted rows matters to the claims). -/
def insertSorted (e : String × GeneAgg) : List (String × GeneAgg) → List (String × GeneAgg)
  | [] => [e]
  | x :: xs => if x.1 < e.1 then x :: insertSorted e xs else e :: x :: xs

/-- Sort the dictionary by gene name. -/
def sortByGene : List (String × GeneAgg) → List (String × GeneAgg)
  | [] => []
  | x :: xs => insertSorted x (sortByGene xs)

/-- `collapse` can die with Python's `ZeroDivisionError` at line 79. -/
inductive CollapseError
  | zeroDivisionError
deriving DecidableEq

/-- One output row of `collapse` (lines 75-89). -/
structure CollapseOutRow where
  gene : String
  length : Int
  readsCPM : ℚ
  conversionRate : ℚ
  Tcontent : Int
  coverageOnTs : Int
  conversionsOnTs : Int
  readCount : Int
  tcReadCount : Int
  multimapCount : Int
deriving DecidableEq

/-- Lines 77-89 for one gene (given a non-zero `readNumber`). -/
def mkOutRow (readNumber : Int) (e : String × GeneAgg) : CollapseOutRow :=
  { gene := e.1, length := e.2.length,
    readsCPM := (e.2.readCount : ℚ) / (readNumber : ℚ) * 1000000,
    conversionRate :=
      if e.2.coverageOnTs > 0 then (e.2.conversionsOnTs : ℚ) / (e.2.coverageOnTs : ℚ) else 0,
    Tcontent := e.2.Tcontent, coverageOnTs := e.2.coverageOnTs,
    conversionsOnTs := e.2.conversionsOnTs, readCount := e.2.readCount,
    tcReadCount := e.2.tcReadCount, multimapCount := e.2.multimapCount }

/-- Lines 75-89: the emission loop.  `float(readCount) / float(readNumber)`
at line 79 has no zero guard: with at least one gene and `readNumber = 0`
Python raises `ZeroDivisionError` at the first gene. -/
def collapseEmit (dict : List (String × GeneAgg)) (readNumber : Int) :
    Except CollapseError (List CollapseOutRow) :=
  let sorted := sortByGene dict
  if sorted.isEmpty then Except.ok []
  else if readNumber = 0 then Except.error CollapseError.zeroDivisionError
  else Except.ok (sorted.map (mkOutRow readNumber))

/-- Lines 20-91: the whole `collapse` pass over pre-split rows, returning the
emitted table (or the exception) and the format-error log. -/
def collapse (rows : List (List String)) :
    Except CollapseError (List CollapseOutRow) × List Nat :=
  let s := collapseScan rows
  (collapseEmit s.1 s.2, collapseLog rows)

/-- The `readCount` total currently recorded for gene `g` (0 if absent). -/
def geneReadCount (dict : List (String × GeneAgg)) (g : String) : Int :=
  ((dict.find? (fun e => e.1 = g)).map (fun e => e.2.readCount)).getD 0

/-- Well-formedness of a read used by the conversion-rate claims: its
strand-correct conversion mismatches sit at pairwise distinct reference
positions, each inside the read's aligned span. -/
def ReadWellFormed (r : SlamRead) : Prop :=
  ((r.mismatches.filter
      (fun m => m.isTCMismatch (r.direction = ReadDirection.Reverse))).map
      Mismatch.referencePosition).Nodup ∧
  ∀ m ∈ r.mismatches, m.isTCMismatch (r.direction = ReadDirection.Reverse) = true →
    r.startRefPos ≤ m.referencePosition ∧ m.referencePosition < r.endRefPos

/-- The conversion mismatches of a read lie inside its span (no distinctness). -/
def ReadSpanOk (r : SlamRead) : Prop :=
  ∀ m ∈ r.mismatches, m.isTCMismatch (r.direction = ReadDirection.Reverse) = true →
    r.startRefPos ≤ m.referencePosition ∧ m.referencePosition < r.endRefPos

instance (r : SlamRead) : Decidable (ReadWellFormed r) := by
  unfold ReadWellFormed
  infer_instance

instance (r : SlamRead) : Decidable (ReadSpanOk r) := by
  unfold ReadSpanOk
  infer_instance

/-- Number of strand-correct conversion mismatches a read carries. -/
def readTcMismatchCount (r : SlamRead) : Nat :=
  (r.mismatches.filter
    (fun m => m.isTCMismatch (r.direction = ReadDirection.Reverse))).length

/-- Maximum conversion-mismatch count over a list of reads. -/
def maxTcMismatches (reads : List SlamRead) : Nat :=
  reads.foldl (fun a r => max a (readTcMismatchCount r)) 0

instance {ε α : Type} [DecidableEq ε] [DecidableEq α] : DecidableEq (Except ε α) := fun x y =>
  match x, y with
  | Except.error a, Except.error b =>
      if h : a = b then isTrue (by rw [h]) else isFalse (fun hc => h (by injection hc))
  | Except.ok a, Except.ok b =>
      if h : a = b then isTrue (by rw [h]) else isFalse (fun hc => h (by injection hc))
  | Except.error _, Except.ok _ => isFalse (fun hc => Except.noConfusion hc)
  | Except.ok _, Except.error _ => isFalse (fun hc => Except.noConfusion hc)

/-- The conversion rate a run result carries for its emitted row (0 on error). -/
def rateOf (r : Except TcountError (SlamSeqInterval × List (String × ℚ))) : ℚ :=
  match r with
  | Except.ok p => p.1.conversionRate
  | Except.error _ => 0

/-- Does `m` count as a conversion hit at offset `i` of an interval of length `len`? -/
def tcHitB (rev : Bool) (len i : Nat) (m : Mismatch) : Bool :=
  m.isTCMismatch rev && decide (m.referencePosition = (i : Int)) && decide (i < len)

/-- The invariant of the roll-up dictionary used by the conversion-rate claim. -/
def DictRateInv (dict : List (String × GeneAgg)) : Prop :=
  ∀ e ∈ dict, 0 ≤ e.2.conversionsOnTs ∧ e.2.conversionsOnTs ≤ e.2.coverageOnTs

def c1utr : Utr :=
  { chromosome := "chr1", start := 0, stop := 2, strand := "+", name := "g1",
    reads := [], refSeqIter := fun _ => 'T' }

def c1refs : RefFile := [("chr1", "TT")]

def c1wutr : Utr :=
  { chromosome := "w1", start := 0, stop := 1, strand := "-", name := "w",
    reads := [mkRead ReadDirection.Forward 0 1 [] 0 false false],
    refSeqIter := fun _ => 'A' }

def c2utr : Utr :=
  { chromosome := "chr2", start := 0, stop := 3, strand := "+", name := "utrB",
    reads := [mkRead ReadDirection.Forward 0 2 [] 1 true false,
              mkRead ReadDirection.Reverse 0 2 [] 0 false false,
              mkRead ReadDirection.Reverse 1 3 [] 0 false true],
    refSeqIter := fun _ => 'T' }

def c3bad13 : List String :=
  ["c", "0", "9", "gA", "1", "+", "x", "y", "2", "3", "1", "4", "1"]

def c3good14 : List String :=
  ["c", "0", "9", "gA", "5", "+", "x", "y", "2", "3", "1", "4", "1", "0"]

def c4row : List String :=
  ["c", "0", "9", "g", "5", "+", "x", "y", "2", "3", "1", "0", "1", "0"]

def c4utr : Utr :=
  { chromosome := "c4", start := 0, stop := 1, strand := "+", name := "n",
    reads := [mkRead ReadDirection.Forward 0 1 [] 0 false false],
    refSeqIter := fun _ => 'G' }

def c9noStrand : Utr :=
  { chromosome := "c9", start := 0, stop := 1, strand := ".", name := "n1",
    reads := [], refSeqIter := fun _ => 'T' }

def c9neg : Utr :=
  { chromosome := "c9", start := -1, stop := 1, strand := "+", name := "n2",
    reads := [], refSeqIter := fun _ => 'T' }

def c9warn : Utr :=
  { chromosome := "c9", start := 0, stop := 2, strand := "+", name := "n3",
    reads := [mkRead ReadDirection.Forward 0 2 [] 0 false false,
              mkRead ReadDirection.Forward 0 2 [] 0 false false,
              mkRead ReadDirection.Reverse 0 2 [] 0 false false,
              mkRead ReadDirection.Reverse 0 2 [] 0 false false,
              mkRead ReadDirection.Reverse 0 2 [] 0 false false],
    refSeqIter := fun _ => 'T' }

def c9good : Utr :=
  { chromosome := "c9", start := 4, stop := 5, strand := "+", name := "n4",
    reads := [], refSeqIter := fun _ => 'T' }

def c9goodRow : SlamSeqInterval :=
  { chromosome := "c9", start := 4, stop := 5, strand := "+", name := "n4",
    Tcontent := 0, readsCPM := 0, coverageOnTs := -1, conversionsOnTs := 0,
    conversionRate := 0, readCount := 0, tcReadCount := 0, multimapCount := 0 }

def c10rowNeg : List String :=
  ["c", "0", "9", "g", "-3", "+", "x", "y", "-2", "-4", "-6", "-5", "-7", "-8"]

def c10wrow : List String :=
  ["c", "0", "9", "h", "2", "+", "x", "y", "1", "1", "1", "-4", "0", "0"]

def c7read : SlamRead :=
  mkRead ReadDirection.Forward 0 0 [⟨0, true, false⟩] 1 true false

def c7wread : SlamRead :=
  mkRead ReadDirection.Forward 0 2 [⟨1, true, false⟩] 1 true false

def c8utr : Utr :=
  { chromosome := "chrX", start := 0, stop := 2, strand := "+", name := "w8",
    reads := [mkRead ReadDirection.Forward 0 2 [] 1 true false],
    refSeqIter := fun _ => 'G' }

def c8utr2 : Utr :=
  { chromosome := "chr1", start := 1, stop := 4, strand := "-", name := "w8b",
    reads := [], refSeqIter := fun _ => 'G' }

def c8refs : RefFile := [("chr1", "ttagT")]

def c5utr : Utr :=
  { chromosome := "chr5", start := 0, stop := 1, strand := "+", name := "g5",
    reads := [mkRead ReadDirection.Forward 0 1 [⟨0, true, false⟩, ⟨0, true, false⟩] 2 true false],
    refSeqIter := fun _ => 'T' }

def c5wutr : Utr :=
  { chromosome := "w5", start := 0, stop := 1, strand := "+", name := "v",
    reads := [], refSeqIter := fun _ => 'T' }

def c5wrow : SlamSeqInterval :=
  { chromosome := "w5", start := 0, stop := 1, strand := "+", name := "v",
    Tcontent := 0, readsCPM := 0, coverageOnTs := -1, conversionsOnTs := 0,
    conversionRate := 0, readCount := 0, tcReadCount := 0, multimapCount := 0 }

def c5wfields : List String :=
  ["c", "0", "9", "gw", "5", "+", "x", "y", "3", "4", "2", "2", "1", "0"]

def c6wacc : List (String × ℚ) :=
  [(mkBedgraphKey "w6" 3 "+", 7), (mkBedgraphKey "w6" 4 "-", 9)]

theorem listInc_length (l : List Nat) (i : Nat) : (listInc l i).length = l.length := by
  induction l generalizing i with
  | nil => rfl
  | cons x xs ih =>
      cases i with
      | zero => rfl
      | succ n => simp [listInc, ih]

theorem listInc_getD (l : List Nat) (i j : Nat) :
    (listInc l i).getD j 0 = l.getD j 0 + if i = j ∧ j < l.length then 1 else 0 := by
  induction l generalizing i j with
  | nil => simp [listInc]
  | cons x xs ih =>
      cases i with
      | zero =>
          cases j with
          | zero => simp [listInc]
          | succ m => simp [listInc]
      | succ n =>
          cases j with
          | zero => simp [listInc]
          | succ m =>
              simp only [listInc, List.getD_cons_succ, List.length_cons, ih n m]
              split_ifs <;> omega

theorem applyMismatches_length (len : Nat) (rev : Bool) (ms : List Mismatch) (tc : List Nat) :
    (applyMismatches len rev ms tc).length = tc.length := by
  induction ms generalizing tc with
  | nil => rfl
  | cons m ms ih =>
      rw [applyMismatches, ih]
      split_ifs <;> simp [listInc_length]

theorem applyMismatches_getD (len : Nat) (rev : Bool) (ms : List Mismatch) (tc : List Nat)
    (i : Nat) (h : tc.length = len) :
    (applyMismatches len rev ms tc).getD i 0 = tc.getD i 0 + ms.countP (tcHitB rev len i) := by
  induction ms generalizing tc with
  | nil => simp [applyMismatches]
  | cons m ms ih =>
      rw [applyMismatches]
      by_cases hg : m.isTCMismatch rev = true ∧ 0 ≤ m.referencePosition ∧
          m.referencePosition < (len : Int)
      · rw [if_pos hg, ih (listInc tc m.referencePosition.toNat) (by rw [listInc_length]; exact h),
            listInc_getD, List.countP_cons]
        by_cases hp : m.referencePosition = (i : Int)
        · have hpt : m.referencePosition.toNat = i := by omega
          have hil : i < tc.length := by
            rw [h]; omega
          have hb : tcHitB rev len i m = true := by
            simp [tcHitB, hg.1, hp]; omega
          rw [if_pos ⟨hpt, hil⟩, hb]
          simp; ring
        · have hpt : ¬ (m.referencePosition.toNat = i ∧ i < tc.length) := by
            intro hc
            exact hp (by omega)
          have hb : ¬ tcHitB rev len i m = true := by
            simp [tcHitB, hg.1]
            intro hc
            exact absurd hc hp
          rw [if_neg hpt, if_neg hb]
          simp
      · rw [if_neg hg, ih tc h, List.countP_cons]
        have hb : ¬ tcHitB rev len i m = true := by
          simp only [tcHitB, Bool.and_eq_true, decide_eq_true_eq]
          intro hc
          obtain ⟨⟨h1, h2⟩, h3⟩ := hc
          exact hg ⟨h1, by omega, by omega⟩
        rw [if_neg hb]
        simp

theorem applyCoverageAux_length (len : Nat) (cnt : Nat) (s : Int) (cov : List Nat) :
    (applyCoverageAux len s cnt cov).length = cov.length := by
  induction cnt generalizing s cov with
  | zero => rfl
  | succ n ih =>
      rw [applyCoverageAux, ih]
      split_ifs <;> simp [listInc_length]

theorem applyCoverageAux_getD (len : Nat) (cnt : Nat) (s : Int) (cov : List Nat) (i : Nat) :
    (applyCoverageAux len s cnt cov).getD i 0 =
      cov.getD i 0 +
        if s ≤ (i : Int) ∧ (i : Int) < s + (cnt : Int) ∧ i < len ∧ i < cov.length then 1
        else 0 := by
  induction cnt generalizing s cov with
  | zero =>
      rw [applyCoverageAux]
      have h : ¬ (s ≤ (i : Int) ∧ (i : Int) < s + ((0 : Nat) : Int) ∧ i < len ∧ i < cov.length) := by
        push_cast
        omega
      rw [if_neg h]
      omega
  | succ n ih =>
      rw [applyCoverageAux, ih]
      have hlen : (if 0 ≤ s ∧ s < (len : Int) then listInc cov s.toNat else cov).length =
          cov.length := by
        split_ifs <;> simp [listInc_length]
      have hgd : (if 0 ≤ s ∧ s < (len : Int) then listInc cov s.toNat else cov).getD i 0 =
          cov.getD i 0 + if s = (i : Int) ∧ i < len ∧ i < cov.length then 1 else 0 := by
        by_cases h1 : 0 ≤ s ∧ s < (len : Int)
        · rw [if_pos h1, listInc_getD]
          by_cases h2 : s = (i : Int)
          · have hiff : (s.toNat = i ∧ i < cov.length) ↔ (i < cov.length) :=
              ⟨fun a => a.2, fun a => ⟨by omega, a⟩⟩
            by_cases h3 : i < cov.length
            · rw [if_pos (hiff.mpr h3), if_pos ⟨h2, by omega, h3⟩]
            · rw [if_neg (fun a => h3 (hiff.mp a)), if_neg (fun a => h3 a.2.2)]
          · rw [if_neg (fun a => h2 (show s = (i : Int) by omega)),
              if_neg (fun a => h2 a.1)]
        · rw [if_neg h1]
          have h4 : ¬ (s = (i : Int) ∧ i < len ∧ i < cov.length) := by
            intro a
            exact h1 ⟨by omega, by omega⟩
          rw [if_neg h4]
          omega
      rw [hgd, hlen]
      push_cast
      split_ifs <;> omega

theorem applyCoverage_length (len : Nat) (s e : Int) (cov : List Nat) :
    (applyCoverage len s e cov).length = cov.length := by
  rw [applyCoverage, applyCoverageAux_length]

theorem applyCoverage_getD (len : Nat) (s e : Int) (cov : List Nat) (i : Nat) :
    (applyCoverage len s e cov).getD i 0 =
      cov.getD i 0 + if s ≤ (i : Int) ∧ (i : Int) < e ∧ i < len ∧ i < cov.length then 1
        else 0 := by
  rw [applyCoverage, applyCoverageAux_getD]
  by_cases h : s ≤ (i : Int) ∧ (i : Int) < e ∧ i < len ∧ i < cov.length
  · rw [if_pos h, if_pos ⟨h.1, by omega, h.2.2⟩]
  · have h2 : ¬ (s ≤ (i : Int) ∧ (i : Int) < s + ((e - s).toNat : Int) ∧ i < len ∧
        i < cov.length) := by
      intro a
      exact h ⟨a.1, by omega, a.2.2⟩
    rw [if_neg h2, if_neg h]

theorem processRead_tcCountUtr (strictTCs : Bool) (len : Nat) (st : ScanState) (r : SlamRead) :
    (processRead strictTCs len st r).tcCountUtr =
      applyMismatches len ((applyStrict strictTCs r).direction = ReadDirection.Reverse)
        (applyStrict strictTCs r).mismatches st.tcCountUtr := by
  simp only [processRead]
  split_ifs <;> rfl

theorem processRead_coverageUtr (strictTCs : Bool) (len : Nat) (st : ScanState) (r : SlamRead) :
    (processRead strictTCs len st r).coverageUtr =
      applyCoverage len (applyStrict strictTCs r).startRefPos
        (applyStrict strictTCs r).endRefPos st.coverageUtr := by
  simp only [processRead]
  split_ifs <;> rfl

theorem applyStrict_wf (b : Bool) (r : SlamRead) (h : ReadWellFormed r) :
    ReadWellFormed (applyStrict b r) := by
  unfold applyStrict
  split_ifs with hs
  · refine ⟨by simp, ?_⟩
    intro m hm
    exact absurd hm (by simp)
  · exact h

theorem applyStrict_spanOk (b : Bool) (r : SlamRead) (h : ReadSpanOk r) :
    ReadSpanOk (applyStrict b r) := by
  unfold applyStrict
  split_ifs with hs
  · intro m hm
    exact absurd hm (by simp)
  · exact h

theorem applyStrict_tcCount_le (b : Bool) (r : SlamRead) :
    readTcMismatchCount (applyStrict b r) ≤ readTcMismatchCount r := by
  unfold applyStrict readTcMismatchCount
  split_ifs <;> simp

theorem foldl_max_init (l : List SlamRead) (a : Nat) :
    a ≤ l.foldl (fun a r => max a (readTcMismatchCount r)) a := by
  induction l generalizing a with
  | nil => exact le_refl a
  | cons x xs ih => exact le_trans (Nat.le_max_left a (readTcMismatchCount x)) (ih _)

theorem le_maxTcMismatches (reads : List SlamRead) (r : SlamRead) (h : r ∈ reads) :
    readTcMismatchCount r ≤ maxTcMismatches reads := by
  unfold maxTcMismatches
  generalize (0 : Nat) = a
  induction reads generalizing a with
  | nil => exact absurd h (by simp)
  | cons x xs ih =>
      rcases List.mem_cons.mp h with h1 | h2
      · subst h1
        exact le_trans (Nat.le_max_right a (readTcMismatchCount r)) (foldl_max_init xs _)
      · exact ih h2 _

theorem countP_le_one_of_nodup (rev : Bool) (len i : Nat) (ms : List Mismatch)
    (h : ((ms.filter (fun m => m.isTCMismatch rev)).map Mismatch.referencePosition).Nodup) :
    ms.countP (tcHitB rev len i) ≤ 1 := by
  have hc := List.nodup_iff_count_le_one.mp h (i : Int)
  rw [List.count_eq_countP, List.countP_map, List.countP_filter] at hc
  refine le_trans (List.countP_mono_left ?_) hc
  intro m _ hm
  simp only [tcHitB, Bool.and_eq_true, decide_eq_true_eq] at hm
  simp only [Function.comp_apply, Bool.and_eq_true, beq_iff_eq]
  exact ⟨hm.1.2, hm.1.1⟩

theorem countP_le_tcCount (rev : Bool) (len i : Nat) (ms : List Mismatch) :
    ms.countP (tcHitB rev len i) ≤ (ms.filter (fun m => m.isTCMismatch rev)).length := by
  rw [← List.countP_eq_length_filter]
  apply List.countP_mono_left
  intro m _ hm
  simp only [tcHitB, Bool.and_eq_true] at hm
  exact hm.1.1

theorem countP_pos_hit (rev : Bool) (len i : Nat) (ms : List Mismatch)
    (h : ms.countP (tcHitB rev len i) ≠ 0) :
    ∃ m ∈ ms, m.isTCMismatch rev = true ∧ m.referencePosition = (i : Int) ∧ i < len := by
  by_contra hno
  push_neg at hno
  apply h
  rw [List.countP_eq_zero]
  intro m hm hb
  simp only [tcHitB, Bool.and_eq_true, decide_eq_true_eq] at hb
  exact absurd hb.2 (Nat.not_lt.mpr (hno m hm hb.1.1 hb.1.2))

theorem step_arrays_le (len : Nat) (rev : Bool) (ms : List Mismatch) (s e : Int)
    (tc cov : List Nat)
    (hNodup : ((ms.filter (fun m => m.isTCMismatch rev)).map Mismatch.referencePosition).Nodup)
    (hSpan : ∀ m ∈ ms, m.isTCMismatch rev = true →
      s ≤ m.referencePosition ∧ m.referencePosition < e)
    (htl : tc.length = len) (hcl : cov.length = len)
    (hle : ∀ i, tc.getD i 0 ≤ cov.getD i 0) (i : Nat) :
    (applyMismatches len rev ms tc).getD i 0 ≤ (applyCoverage len s e cov).getD i 0 := by
  rw [applyMismatches_getD _ _ _ _ _ htl, applyCoverage_getD]
  by_cases hz : ms.countP (tcHitB rev len i) = 0
  · rw [hz]
    have := hle i
    split_ifs <;> omega
  · obtain ⟨m, hm, hTC, hpos, hlen⟩ := countP_pos_hit rev len i ms hz
    have hspan := hSpan m hm hTC
    have hcond : s ≤ (i : Int) ∧ (i : Int) < e ∧ i < len ∧ i < cov.length := by
      refine ⟨by omega, by omega, hlen, by omega⟩
    rw [if_pos hcond]
    have h1 := countP_le_one_of_nodup rev len i ms hNodup
    have := hle i
    omega

theorem step_arrays_le_mul (len : Nat) (rev : Bool) (ms : List Mismatch) (s e : Int)
    (tc cov : List Nat) (M : Nat)
    (hSpan : ∀ m ∈ ms, m.isTCMismatch rev = true →
      s ≤ m.referencePosition ∧ m.referencePosition < e)
    (hM : (ms.filter (fun m => m.isTCMismatch rev)).length ≤ M)
    (htl : tc.length = len) (hcl : cov.length = len)
    (hle : ∀ i, tc.getD i 0 ≤ cov.getD i 0 * M) (i : Nat) :
    (applyMismatches len rev ms tc).getD i 0 ≤ (applyCoverage len s e cov).getD i 0 * M := by
  rw [applyMismatches_getD _ _ _ _ _ htl, applyCoverage_getD]
  by_cases hz : ms.countP (tcHitB rev len i) = 0
  · rw [hz]
    have := hle i
    have hexp : (cov.getD i 0 + 1) * M = cov.getD i 0 * M + M := by ring
    have hexp0 : (cov.getD i 0 + 0) * M = cov.getD i 0 * M := by ring
    split_ifs <;> omega
  · obtain ⟨m, hm, hTC, hpos, hlen⟩ := countP_pos_hit rev len i ms hz
    have hspan := hSpan m hm hTC
    have hcond : s ≤ (i : Int) ∧ (i : Int) < e ∧ i < len ∧ i < cov.length := by
      refine ⟨by omega, by omega, hlen, by omega⟩
    rw [if_pos hcond]
    have h1 := le_trans (countP_le_tcCount rev len i ms) hM
    have := hle i
    have hexp : (cov.getD i 0 + 1) * M = cov.getD i 0 * M + M := by ring
    omega

theorem scan_foldl_lengths (strictTCs : Bool) (len : Nat) (reads : List SlamRead)
    (st : ScanState) (h1 : st.tcCountUtr.length = len) (h2 : st.coverageUtr.length = len) :
    (reads.foldl (processRead strictTCs len) st).tcCountUtr.length = len ∧
      (reads.foldl (processRead strictTCs len) st).coverageUtr.length = len := by
  induction reads generalizing st with
  | nil => exact ⟨h1, h2⟩
  | cons r rs ih =>
      simp only [List.foldl_cons]
      apply ih
      · rw [processRead_tcCountUtr, applyMismatches_length]
        exact h1
      · rw [processRead_coverageUtr, applyCoverage_length]
        exact h2

theorem scanReads_lengths (strictTCs : Bool) (len : Nat) (reads : List SlamRead) :
    (scanReads strictTCs len reads).tcCountUtr.length = len ∧
      (scanReads strictTCs len reads).coverageUtr.length = len := by
  apply scan_foldl_lengths
  · simp [initScan]
  · simp [initScan]

theorem scan_foldl_le (strictTCs : Bool) (len : Nat) (reads : List SlamRead) (st : ScanState)
    (h1 : st.tcCountUtr.length = len) (h2 : st.coverageUtr.length = len)
    (hle : ∀ i, st.tcCountUtr.getD i 0 ≤ st.coverageUtr.getD i 0)
    (hW : ∀ r ∈ reads, ReadWellFormed r) (i : Nat) :
    (reads.foldl (processRead strictTCs len) st).tcCountUtr.getD i 0 ≤
      (reads.foldl (processRead strictTCs len) st).coverageUtr.getD i 0 := by
  induction reads generalizing st with
  | nil => exact hle i
  | cons r rs ih =>
      simp only [List.foldl_cons]
      have hwf : ReadWellFormed (applyStrict strictTCs r) :=
        applyStrict_wf strictTCs r (hW r (by simp))
      apply ih
      · rw [processRead_tcCountUtr, applyMismatches_length]
        exact h1
      · rw [processRead_coverageUtr, applyCoverage_length]
        exact h2
      · intro j
        rw [processRead_tcCountUtr, processRead_coverageUtr]
        exact step_arrays_le len _ _ _ _ _ _ hwf.1 hwf.2 h1 h2 hle j
      · intro r2 hr2
        exact hW r2 (by simp [hr2])

/-- Under the span precondition, every position of the final arrays satisfies
`conversions ≤ coverage` (each well-formed read adds at most one conversion at
a covered position). -/
theorem scanReads_le (strictTCs : Bool) (len : Nat) (reads : List SlamRead)
    (hW : ∀ r ∈ reads, ReadWellFormed r) (i : Nat) :
    (scanReads strictTCs len reads).tcCountUtr.getD i 0 ≤
      (scanReads strictTCs len reads).coverageUtr.getD i 0 := by
  apply scan_foldl_le
  · simp [initScan]
  · simp [initScan]
  · intro j
    simp [initScan]
  · exact hW

theorem scan_foldl_le_mul (strictTCs : Bool) (len : Nat) (M : Nat) (reads : List SlamRead)
    (st : ScanState)
    (h1 : st.tcCountUtr.length = len) (h2 : st.coverageUtr.length = len)
    (hle : ∀ i, st.tcCountUtr.getD i 0 ≤ st.coverageUtr.getD i 0 * M)
    (hW : ∀ r ∈ reads, ReadSpanOk r)
    (hM : ∀ r ∈ reads, readTcMismatchCount r ≤ M) (i : Nat) :
    (reads.foldl (processRead strictTCs len) st).tcCountUtr.getD i 0 ≤
      (reads.foldl (processRead strictTCs len) st).coverageUtr.getD i 0 * M := by
  induction reads generalizing st with
  | nil => exact hle i
  | cons r rs ih =>
      simp only [List.foldl_cons]
      have hwf : ReadSpanOk (applyStrict strictTCs r) :=
        applyStrict_spanOk strictTCs r (hW r (by simp))
      have hMr : readTcMismatchCount (applyStrict strictTCs r) ≤ M :=
        le_trans (applyStrict_tcCount_le strictTCs r) (hM r (by simp))
      apply ih
      · rw [processRead_tcCountUtr, applyMismatches_length]
        exact h1
      · rw [processRead_coverageUtr, applyCoverage_length]
        exact h2
      · intro j
        rw [processRead_tcCountUtr, processRead_coverageUtr]
        exact step_arrays_le_mul len _ _ _ _ _ _ M hwf hMr h1 h2 hle j
      · intro r2 hr2
        exact hW r2 (by simp [hr2])
      · intro r2 hr2
        exact hM r2 (by simp [hr2])

/-- Under the span precondition, every position of the final arrays satisfies
`conversions ≤ coverage * (max conversion mismatches per read)`. -/
theorem scanReads_le_mul (strictTCs : Bool) (len : Nat) (reads : List SlamRead)
    (hW : ∀ r ∈ reads, ReadSpanOk r) (i : Nat) :
    (scanReads strictTCs len reads).tcCountUtr.getD i 0 ≤
      (scanReads strictTCs len reads).coverageUtr.getD i 0 * maxTcMismatches reads := by
  apply scan_foldl_le_mul
  · simp [initScan]
  · simp [initScan]
  · intro j
    simp [initScan]
  · exact hW
  · intro r hr
    exact le_maxTcMismatches reads r hr

theorem applyMismatches_getD_mono (len : Nat) (rev : Bool) (ms : List Mismatch)
    (tc : List Nat) (i : Nat) :
    tc.getD i 0 ≤ (applyMismatches len rev ms tc).getD i 0 := by
  induction ms generalizing tc with
  | nil => exact le_refl _
  | cons m ms ih =>
      rw [applyMismatches]
      refine le_trans ?_ (ih _)
      split_ifs with hg
      · rw [listInc_getD]
        split_ifs <;> omega
      · exact le_refl _

theorem applyCoverage_getD_mono (len : Nat) (s e : Int) (cov : List Nat) (i : Nat) :
    cov.getD i 0 ≤ (applyCoverage len s e cov).getD i 0 := by
  rw [applyCoverage_getD]
  split_ifs <;> omega

/-- Processing one more read leaves every entry of both arrays unchanged or larger. -/
theorem processRead_mono (strictTCs : Bool) (len : Nat) (st : ScanState) (r : SlamRead)
    (i : Nat) :
    st.tcCountUtr.getD i 0 ≤ (processRead strictTCs len st r).tcCountUtr.getD i 0 ∧
      st.coverageUtr.getD i 0 ≤ (processRead strictTCs len st r).coverageUtr.getD i 0 := by
  rw [processRead_tcCountUtr, processRead_coverageUtr]
  exact ⟨applyMismatches_getD_mono _ _ _ _ _, applyCoverage_getD_mono _ _ _ _ _⟩

theorem tally_foldl_le (u : Utr) (tc cov : List Nat)
    (hpt : ∀ i, tc.getD i 0 ≤ cov.getD i 0) (l : List Nat) (st : TallyState)
    (h : st.conversionsOnTs ≤ st.coverageOnTs) :
    (l.foldl (tallyStep u tc cov) st).conversionsOnTs ≤
      (l.foldl (tallyStep u tc cov) st).coverageOnTs := by
  induction l generalizing st with
  | nil => exact h
  | cons p ps ih =>
      simp only [List.foldl_cons]
      apply ih
      unfold tallyStep
      have hp := hpt p
      split_ifs <;> dsimp only <;> omega

theorem rate_bounds_int (conv cov : Int) (h0 : 0 ≤ conv) (h1 : conv ≤ cov) :
    0 ≤ (if cov > 0 then (conv : ℚ) / (cov : ℚ) else 0) ∧
      (if cov > 0 then (conv : ℚ) / (cov : ℚ) else 0) ≤ 1 := by
  split_ifs with h
  · constructor
    · apply div_nonneg
      · exact_mod_cast h0
      · exact_mod_cast le_of_lt h
    · rw [div_le_one (by exact_mod_cast h)]
      exact_mod_cast h1
  · norm_num

theorem mem_insertSorted (e x : String × GeneAgg) (l : List (String × GeneAgg)) :
    x ∈ insertSorted e l ↔ x = e ∨ x ∈ l := by
  induction l with
  | nil => simp [insertSorted]
  | cons y ys ih =>
      rw [insertSorted]
      split_ifs with h <;> simp only [List.mem_cons, ih] <;> tauto

theorem mem_sortByGene (x : String × GeneAgg) (l : List (String × GeneAgg)) :
    x ∈ sortByGene l ↔ x ∈ l := by
  induction l with
  | nil => simp [sortByGene]
  | cons y ys ih =>
      rw [sortByGene, mem_insertSorted]
      simp only [List.mem_cons, ih]

theorem bumpAgg_rate_inv (fields : List String) (g : GeneAgg)
    (hrow : pyInt (fieldAt fields 10) ≤ pyInt (fieldAt fields 9))
    (hg : 0 ≤ g.conversionsOnTs ∧ g.conversionsOnTs ≤ g.coverageOnTs) :
    0 ≤ (bumpAgg fields g).conversionsOnTs ∧
      (bumpAgg fields g).conversionsOnTs ≤ (bumpAgg fields g).coverageOnTs := by
  unfold bumpAgg
  dsimp only
  constructor
  · have : (0 : Int) ≤ max (pyInt (fieldAt fields 10)) 0 := le_max_right _ _
    omega
  · have : max (pyInt (fieldAt fields 10)) 0 ≤ max (pyInt (fieldAt fields 9)) 0 :=
      max_le_max hrow (le_refl 0)
    omega

theorem collapseStep_rate_inv (st : List (String × GeneAgg) × Int) (fields : List String)
    (hrow : fields.length = 14 → pyInt (fieldAt fields 10) ≤ pyInt (fieldAt fields 9))
    (hinv : DictRateInv st.1) : DictRateInv (collapseStep st fields).1 := by
  unfold collapseStep
  by_cases h14 : fields.length = 14
  · rw [if_pos h14]
    dsimp only
    intro e he
    by_cases hmem : (st.1.any fun e => e.1 = fieldAt fields 3) = true
    · rw [if_pos hmem] at he
      rcases List.mem_map.mp he with ⟨e0, he0, heq⟩
      by_cases hg : e0.1 = fieldAt fields 3
      · rw [if_pos hg] at heq
        subst heq
        exact bumpAgg_rate_inv fields e0.2 (hrow h14) (hinv e0 he0)
      · rw [if_neg hg] at heq
        subst heq
        exact hinv e0 he0
    · rw [if_neg hmem] at he
      rcases List.mem_append.mp he with he0 | he1
      · exact hinv e he0
      · have heq : e = (fieldAt fields 3, bumpAgg fields zeroAgg) := by
          simpa using he1
        subst heq
        exact bumpAgg_rate_inv fields zeroAgg (hrow h14) (by simp [zeroAgg])
  · rw [if_neg h14]
    exact hinv

theorem collapseScan_rate_inv (rows : List (List String))
    (hrows : ∀ fields ∈ rows, fields.length = 14 →
      pyInt (fieldAt fields 10) ≤ pyInt (fieldAt fields 9)) :
    DictRateInv (collapseScan rows).1 := by
  unfold collapseScan
  have haux : ∀ (rs : List (List String)) (st : List (String × GeneAgg) × Int),
      (∀ fields ∈ rs, fields.length = 14 →
        pyInt (fieldAt fields 10) ≤ pyInt (fieldAt fields 9)) →
      DictRateInv st.1 → DictRateInv (rs.foldl collapseStep st).1 := by
    intro rs
    induction rs with
    | nil => exact fun st _ h => h
    | cons f fs ih =>
        intro st hr hinv
        simp only [List.foldl_cons]
        apply ih
        · intro fields hf
          exact hr fields (by simp [hf])
        · exact collapseStep_rate_inv st f (hr f (by simp)) hinv
  apply haux rows ([], 0) hrows
  intro e he
  exact absurd he (by simp)

/-- C1 counterexample: for a `+` interval over a reference of two `T`s with no
reads at all, the emitted row has `coverageOnTs = -1` (not 0) and
`Tcontent = 0` although the interval's computed convertible-base count is 2,
so the claimed all-zero row with the computed reference count is false. -/
theorem C1_counterexample :
    (processUtr false 0 c1refs c1utr).toOption.map
        (fun p => (p.1.coverageOnTs, p.1.Tcontent)) = some (-1, 0) ∧
      computeTcontent c1refs c1utr = 2 := by decide

/-- C1 (amended): an interval with zero reads on its annotated strand still
yields exactly one summary row, with `readsPerMillion = 0`,
`conversionRate = 0`, `conversionsOnTs = 0` and zero read counters, but with
`coverageOnTs = -1` (the line-130 sentinel) and `Tcontent = 0` (the default
record is built before the reference count is computed), and it contributes no
bedgraph entries. -/
theorem C1_zero_strand_reads_row (strictTCs : Bool) (readNumber : Nat) (refs : RefFile)
    (u : Utr) (hs : u.hasStrand = true) (h0 : ¬ u.start < 0)
    (hz : ¬ ((u.strand = "+" ∧ (scanReads strictTCs u.getLength u.reads).countFwd > 0) ∨
        (u.strand = "-" ∧ (scanReads strictTCs u.getLength u.reads).countRev > 0))) :
    processUtr strictTCs readNumber refs u =
      Except.ok
        ({ chromosome := u.chromosome, start := u.start, stop := u.stop,
           strand := u.strand, name := u.name, Tcontent := 0, readsCPM := 0,
           coverageOnTs := -1, conversionsOnTs := 0, conversionRate := 0,
           readCount := 0, tcReadCount := 0, multimapCount := 0 }, []) := by
  simp only [processUtr]
  rw [if_neg (by simp [hs]), if_neg h0, if_neg hz]

/-- Witness for C1: a `-` interval whose only read is forward (zero reads on
the annotated strand) gets the default row. -/
theorem C1_zero_strand_reads_row_witness :
    processUtr true 7 [] c1wutr =
      Except.ok
        ({ chromosome := c1wutr.chromosome, start := c1wutr.start, stop := c1wutr.stop,
           strand := c1wutr.strand, name := c1wutr.name, Tcontent := 0, readsCPM := 0,
           coverageOnTs := -1, conversionsOnTs := 0, conversionRate := 0,
           readCount := 0, tcReadCount := 0, multimapCount := 0 }, []) :=
  C1_zero_strand_reads_row true 7 [] c1wutr (by decide) (by decide) (by decide)

/-- C2: on a `+` interval with one forward and two reverse reads the warning
condition of line 205 fires, but the warning print of line 206 concatenates a
Python `str` with the `int` read counters, raising `TypeError`: the sample's
run aborts and no summary row is produced for the interval, contradicting the
claimed non-fatal warning. -/
theorem C2_strand_warning_crashes :
    processUtr false 10 [] c2utr = Except.error TcountError.strandWarningTypeError ∧
      (scanReads false c2utr.getLength c2utr.reads).countFwd = 1 ∧
      (scanReads false c2utr.getLength c2utr.reads).countRev = 2 := by decide

/-- C3: the `else` at line 67 belongs to the `for` loop, so a pass over a
malformed 13-field row followed by a valid 14-field row logs exactly one
format error, reporting the *valid* last row's 14 fields — the malformed row
is skipped silently (it changes neither the dictionary nor `readNumber`) and
even an all-valid input logs one spurious format error. -/
theorem C3_forelse_misreport :
    collapseLog [c3bad13, c3good14] = [14] ∧
      collapseScan [c3bad13, c3good14] = collapseScan [c3good14] ∧
      collapseLog [c3good14] = [14] := by decide

/-- C4: `collapse` divides by the summed `readNumber` with no zero guard — a
single valid row with `readCount = 0` makes it raise `ZeroDivisionError`
instead of emitting `readsPerMillion = 0`; `computeTconversions` by contrast
guards the same ratio (a zero mapped-read total yields `readsCPM = 0`). -/
theorem C4_division_guard_status :
    (collapse [c4row]).1 = Except.error CollapseError.zeroDivisionError ∧
      (processUtr false 0 [] c4utr).toOption.map (fun p => p.1.readsCPM) = some 0 := by
  decide

/-- C9: a BAM-version mismatch, a strand-less interval and a negative start
each abort the run before further rows are emitted (the loop stops at the
failing interval, keeping only the rows already printed) — but the run *also*
aborts on a strand-count-mismatch interval (the `TypeError` of the warning
print at line 206), which the claim classifies as non-fatal, so the "exactly
when" of the claim fails. -/
theorem C9_abort_behavior :
    computeTconversions "v2" "v3" false 5 [] [] =
        ⟨[], [], some (TcountError.wrongBamVersion "v2")⟩ ∧
      processUtr false 5 [] c9noStrand = Except.error TcountError.noStrand ∧
      processUtr false 5 [] c9neg = Except.error TcountError.negativeStart ∧
      (processUtr false 5 [] c9warn = Except.error TcountError.strandWarningTypeError ∧
        c9warn.hasStrand = true ∧ ¬ c9warn.start < 0) ∧
      computeTconversions "v3" "v3" false 5 [] [c9good, c9noStrand, c9good] =
        ⟨[c9goodRow], [], some TcountError.noStrand⟩ := by decide

theorem collapseStep_snd (st : List (String × GeneAgg) × Int) (fields : List String) :
    (collapseStep st fields).2 =
      if fields.length = 14 then st.2 + pyInt (fieldAt fields 11) else st.2 := by
  unfold collapseStep
  split_ifs <;> rfl

theorem collapse_foldl_readNumber (rows : List (List String))
    (st : List (String × GeneAgg) × Int) :
    (rows.foldl collapseStep st).2 =
      st.2 + ((rows.filter (fun f => f.length = 14)).map (fun f => pyInt (fieldAt f 11))).sum := by
  induction rows generalizing st with
  | nil => simp
  | cons f fs ih =>
      simp only [List.foldl_cons]
      rw [ih, collapseStep_snd]
      by_cases h : f.length = 14
      · rw [if_pos h]
        simp only [List.filter_cons, h]
        simp [add_assoc]
      · rw [if_neg h]
        simp only [List.filter_cons]
        simp [h]

theorem geneReadCount_map_bump (l : List (String × GeneAgg)) (fields : List String)
    (h : max (pyInt (fieldAt fields 11)) 0 = 0) :
    geneReadCount
        (l.map (fun e =>
          if e.1 = fieldAt fields 3 then (fieldAt fields 3, bumpAgg fields e.2) else e))
        (fieldAt fields 3) =
      geneReadCount l (fieldAt fields 3) := by
  induction l with
  | nil => rfl
  | cons x xs ih =>
      simp only [List.map_cons]
      by_cases hx : x.1 = fieldAt fields 3
      · rw [if_pos hx]
        unfold geneReadCount
        rw [List.find?_cons_of_pos _ (by simp), List.find?_cons_of_pos _ (by simp [hx])]
        simp [bumpAgg, h]
      · rw [if_neg hx]
        unfold geneReadCount
        rw [List.find?_cons_of_neg _ (by simp [hx]), List.find?_cons_of_neg _ (by simp [hx])]
        exact ih

theorem find?_append_none {α : Type} (p : α → Bool) (l1 l2 : List α)
    (h : l1.find? p = none) : (l1 ++ l2).find? p = l2.find? p := by
  induction l1 with
  | nil => rfl
  | cons x xs ih =>
      rw [List.find?_cons] at h
      rcases hx : p x with _ | _
      · rw [List.cons_append, List.find?_cons, hx]
        apply ih
        rw [hx] at h
        exact h
      · rw [hx] at h
        exact absurd h (by simp)

theorem collapseStep_neg_readCount (st : List (String × GeneAgg) × Int)
    (fields : List String) (h14 : fields.length = 14)
    (hneg : pyInt (fieldAt fields 11) < 0) :
    geneReadCount (collapseStep st fields).1 (fieldAt fields 3) =
        geneReadCount st.1 (fieldAt fields 3) ∧
      (collapseStep st fields).2 < st.2 := by
  have hmax : max (pyInt (fieldAt fields 11)) 0 = 0 := by omega
  constructor
  · unfold collapseStep
    rw [if_pos h14]
    dsimp only
    by_cases hmem : (st.1.any fun e => e.1 = fieldAt fields 3) = true
    · rw [if_pos hmem]
      exact geneReadCount_map_bump st.1 fields hmax
    · rw [if_neg hmem]
      have hnone : st.1.find? (fun e => decide (e.1 = fieldAt fields 3)) = none := by
        rw [List.find?_eq_none]
        intro x hx
        simp only [decide_eq_true_eq]
        intro hc
        exact hmem (List.any_eq_true.mpr ⟨x, hx, by simp [hc]⟩)
      unfold geneReadCount
      rw [find?_append_none _ _ _ hnone, hnone]
      rw [List.find?_cons_of_pos _ (by simp)]
      simp [bumpAgg, zeroAgg, hmax]
  · rw [collapseStep_snd, if_pos h14]
    omega

/-- C10: in the roll-up, every numeric field of a valid 14-field row is
clamped to zero before entering its gene's sums, while the global
`readNumber` (the CPM denominator) adds the raw, unclamped `readCount`: the
total equals the plain sum of `int(fields[11])` over the 14-field rows, and a
row with a negative `readCount` strictly lowers the denominator while leaving
its own gene's `readCount` total unchanged (concretely, a row with all
numeric fields negative yields an all-zero aggregate and a negative total). -/
theorem C10_rollup_clamping :
    (∀ rows : List (List String),
      (collapseScan rows).2 =
        ((rows.filter (fun f => f.length = 14)).map (fun f => pyInt (fieldAt f 11))).sum) ∧
      (∀ (st : List (String × GeneAgg) × Int) (fields : List String),
        fields.length = 14 → pyInt (fieldAt fields 11) < 0 →
        geneReadCount (collapseStep st fields).1 (fieldAt fields 3) =
            geneReadCount st.1 (fieldAt fields 3) ∧
          (collapseStep st fields).2 < st.2) ∧
      collapseScan [c10rowNeg] = ([("g", zeroAgg)], -5) := by
  refine ⟨?_, ?_, by decide⟩
  · intro rows
    unfold collapseScan
    rw [collapse_foldl_readNumber]
    simp
  · intro st fields h14 hneg
    exact collapseStep_neg_readCount st fields h14 hneg

/-- Witness for C10: a concrete negative-`readCount` row leaves its gene's
total untouched and strictly lowers the running total. -/
theorem C10_rollup_clamping_witness :
    geneReadCount (collapseStep ([("h", zeroAgg)], 3) c10wrow).1 (fieldAt c10wrow 3) =
        geneReadCount [("h", zeroAgg)] (fieldAt c10wrow 3) ∧
      (collapseStep ([("h", zeroAgg)], 3) c10wrow).2 < 3 :=
  C10_rollup_clamping.2.1 ([("h", zeroAgg)], 3) c10wrow (by decide) (by decide)

/-- C7 counterexample: a read with an empty aligned span `[0, 0)` but a
conversion mismatch recorded at position 0 bumps `conversions[0]` to 1 while
`coverage[0]` stays 0, violating the claimed
`conversions[i] ≤ coverage[i] * (max conversions per read)` (here `0 * 1`). -/
theorem C7_counterexample :
    (scanReads false 1 [c7read]).tcCountUtr = [1] ∧
      (scanReads false 1 [c7read]).coverageUtr = [0] ∧
      maxTcMismatches [c7read] = 1 ∧
      ¬ ((scanReads false 1 [c7read]).tcCountUtr.getD 0 0 ≤
          (scanReads false 1 [c7read]).coverageUtr.getD 0 0 * maxTcMismatches [c7read]) := by
  decide

/-- C7 (amended): during the scan of one interval, both per-position arrays
start at zero (they are non-negative by construction, being ℕ-valued), each
processed read leaves every entry unchanged or larger, and — provided every
read's conversion mismatches lie within that read's aligned span —
`conversions[i] ≤ coverage[i] * (max conversion mismatches per read)` holds
at every position of the final state. -/
theorem C7_array_invariants :
    (∀ len i : Nat,
      (initScan len).tcCountUtr.getD i 0 = 0 ∧ (initScan len).coverageUtr.getD i 0 = 0) ∧
      (∀ (strictTCs : Bool) (len : Nat) (st : ScanState) (r : SlamRead) (i : Nat),
        st.tcCountUtr.getD i 0 ≤ (processRead strictTCs len st r).tcCountUtr.getD i 0 ∧
          st.coverageUtr.getD i 0 ≤ (processRead strictTCs len st r).coverageUtr.getD i 0) ∧
      (∀ (strictTCs : Bool) (len : Nat) (reads : List SlamRead),
        (∀ r ∈ reads, ReadSpanOk r) → ∀ i : Nat,
        (scanReads strictTCs len reads).tcCountUtr.getD i 0 ≤
          (scanReads strictTCs len reads).coverageUtr.getD i 0 * maxTcMismatches reads) := by
  refine ⟨?_, ?_, ?_⟩
  · intro len i
    constructor <;> simp [initScan]
  · intro strictTCs len st r i
    exact processRead_mono strictTCs len st r i
  · intro strictTCs len reads h i
    exact scanReads_le_mul strictTCs len reads h i

/-- Witness for C7: a span-respecting read satisfies the multiplicative bound. -/
theorem C7_array_invariants_witness :
    (scanReads true 2 [c7wread]).tcCountUtr.getD 0 0 ≤
      (scanReads true 2 [c7wread]).coverageUtr.getD 0 0 * maxTcMismatches [c7wread] :=
  C7_array_invariants.2.2 true 2 [c7wread] (by decide) 0

/-- C8: for an interval whose chromosome is in the reference,
`referenceConvertibleBaseCount` is the number of `T` (strand `+`) or `A`
(strand `-`) characters of the upper-cased fetched region; an absent
chromosome gives count 0 and is not fatal — the outcome is the same as with
an empty reference, the interval still succeeds when no other error fires,
and the emitted read counter still reflects the scanned reads. -/
theorem C8_reference_Tcontent (strictTCs : Bool) (readNumber : Nat) (refs : RefFile)
    (u : Utr) (hs : u.hasStrand = true) (h0 : ¬ u.start < 0) :
    (∀ seq, refLookup refs u.chromosome = some seq →
      computeTcontent refs u =
        (if u.strand = "-" then countChar 'A' (upperChars (fetchRegion seq u.start u.stop))
         else countChar 'T' (upperChars (fetchRegion seq u.start u.stop)))) ∧
      (refLookup refs u.chromosome = none →
        computeTcontent refs u = 0 ∧
        processUtr strictTCs readNumber refs u = processUtr strictTCs readNumber [] u ∧
        (¬ warnCond u (scanReads strictTCs u.getLength u.reads) →
          (processUtr strictTCs readNumber refs u).isOk = true) ∧
        (∀ row upd, processUtr strictTCs readNumber refs u = Except.ok (row, upd) →
          row.readCount =
            (if u.strand = "-" then (scanReads strictTCs u.getLength u.reads).countRev
             else (scanReads strictTCs u.getLength u.reads).countFwd))) := by
  constructor
  · intro seq hseq
    simp [computeTcontent, hseq]
  · intro hnone
    have ht : computeTcontent refs u = 0 := by simp [computeTcontent, hnone]
    have h2 : computeTcontent [] u = 0 := by simp [computeTcontent, refLookup]
    refine ⟨ht, ?_, ?_, ?_⟩
    · simp only [processUtr, ht, h2]
    · intro hw
      simp only [processUtr]
      rw [if_neg (by simp [hs]), if_neg h0]
      by_cases hc : (u.strand = "+" ∧ (scanReads strictTCs u.getLength u.reads).countFwd > 0) ∨
          (u.strand = "-" ∧ (scanReads strictTCs u.getLength u.reads).countRev > 0)
      · rw [if_pos hc, if_neg hw]
        rfl
      · rw [if_neg hc]
        rfl
    · intro row upd hok
      simp only [processUtr] at hok
      rw [if_neg (by simp [hs]), if_neg h0] at hok
      by_cases hc : (u.strand = "+" ∧ (scanReads strictTCs u.getLength u.reads).countFwd > 0) ∨
          (u.strand = "-" ∧ (scanReads strictTCs u.getLength u.reads).countRev > 0)
      · rw [if_pos hc] at hok
        by_cases hw2 : warnCond u (scanReads strictTCs u.getLength u.reads)
        · rw [if_pos hw2] at hok
          exact absurd hok (by simp)
        · rw [if_neg hw2] at hok
          rw [Except.ok.injEq, Prod.mk.injEq] at hok
          rw [← hok.1]
      · rw [if_neg hc] at hok
        rw [Except.ok.injEq, Prod.mk.injEq] at hok
        rw [← hok.1]
        have hstr : u.strand = "+" ∨ u.strand = "-" := by
          have hh := hs
          unfold Utr.hasStrand at hh
          simpa using hh
        rcases hstr with hp | hm
        · rw [hp] at hc ⊢
          simp at hc ⊢
          omega
        · rw [hm] at hc ⊢
          simp at hc ⊢
          omega

/-- Witness for C8: a chromosome absent from the reference yields count 0 and
a successful interval; a present chromosome yields the strand-matching count
over the upper-cased fetched slice. -/
theorem C8_reference_Tcontent_witness :
    computeTcontent c8refs c8utr = 0 ∧
      (processUtr false 3 c8refs c8utr).isOk = true ∧
      computeTcontent c8refs c8utr2 =
        countChar 'A' (upperChars (fetchRegion "ttagT" c8utr2.start c8utr2.stop)) := by
  have h := C8_reference_Tcontent false 3 c8refs c8utr (by decide) (by decide)
  have h2 := h.2 (by decide)
  have g := C8_reference_Tcontent false 3 c8refs c8utr2 (by decide) (by decide)
  have g2 := g.1 "ttagT" (by decide)
  refine ⟨h2.1, h2.2.2.1 (by decide), ?_⟩
  rw [g2]
  rfl

/-- C5 counterexample: one read spanning `[0, 1)` whose mismatch list records
two conversion mismatches at position 0 — every mismatch position lies inside
the read's span, satisfying the claim's precondition — produces
`conversionsOnTs = 2` over `coverageOnTs = 1`, so the emitted
`conversionRate` is 2, outside `[0, 1]`. -/
theorem C5_counterexample :
    rateOf (processUtr false 1 [] c5utr) = 2 ∧
      ¬ rateOf (processUtr false 1 [] c5utr) ≤ 1 ∧
      (c5utr.reads.all fun r => r.mismatches.all fun m =>
        decide (r.startRefPos ≤ m.referencePosition) &&
          decide (m.referencePosition < r.endRefPos)) = true := by
  have hcov : (runTally c5utr (scanReads false c5utr.getLength c5utr.reads).tcCountUtr
      (scanReads false c5utr.getLength c5utr.reads).coverageUtr).coverageOnTs = 1 := by decide
  have hconv : (runTally c5utr (scanReads false c5utr.getLength c5utr.reads).tcCountUtr
      (scanReads false c5utr.getLength c5utr.reads).coverageUtr).conversionsOnTs = 2 := by
    decide
  have hrate : rateOf (processUtr false 1 [] c5utr) = 2 := by
    simp +decide only [processUtr, rateOf]
    rw [hcov, hconv]
    norm_num
  refine ⟨hrate, by rw [hrate]; norm_num, by decide⟩

theorem rate_bounds_nat (conv cov : Nat) (h1 : conv ≤ cov) :
    0 ≤ (if cov > 0 then (conv : ℚ) / (cov : ℚ) else 0) ∧
      (if cov > 0 then (conv : ℚ) / (cov : ℚ) else 0) ≤ 1 := by
  split_ifs with h
  · constructor
    · apply div_nonneg
      · exact_mod_cast Nat.zero_le conv
      · exact_mod_cast Nat.zero_le cov
    · rw [div_le_one (by exact_mod_cast h)]
      exact_mod_cast h1
  · norm_num

theorem processUtr_ok_rate (strictTCs : Bool) (readNumber : Nat) (refs : RefFile) (u : Utr)
    (row : SlamSeqInterval) (upd : List (String × ℚ))
    (hW : ∀ r ∈ u.reads, ReadWellFormed r)
    (hok : processUtr strictTCs readNumber refs u = Except.ok (row, upd)) :
    (row.coverageOnTs > 0 →
      row.conversionRate = (row.conversionsOnTs : ℚ) / (row.coverageOnTs : ℚ)) ∧
      (row.coverageOnTs = 0 → row.conversionRate = 0) ∧
      0 ≤ row.conversionRate ∧ row.conversionRate ≤ 1 := by
  simp only [processUtr] at hok
  by_cases hs : ¬ u.hasStrand
  · rw [if_pos hs] at hok
    exact absurd hok (by simp)
  · rw [if_neg hs] at hok
    by_cases h0 : u.start < 0
    · rw [if_pos h0] at hok
      exact absurd hok (by simp)
    · rw [if_neg h0] at hok
      by_cases hc : (u.strand = "+" ∧ (scanReads strictTCs u.getLength u.reads).countFwd > 0) ∨
          (u.strand = "-" ∧ (scanReads strictTCs u.getLength u.reads).countRev > 0)
      · rw [if_pos hc] at hok
        by_cases hw : warnCond u (scanReads strictTCs u.getLength u.reads)
        · rw [if_pos hw] at hok
          exact absurd hok (by simp)
        · rw [if_neg hw] at hok
          rw [Except.ok.injEq, Prod.mk.injEq] at hok
          obtain ⟨hrow, -⟩ := hok
          have hptw := scanReads_le strictTCs u.getLength u.reads hW
          have hconv : (runTally u (scanReads strictTCs u.getLength u.reads).tcCountUtr
              (scanReads strictTCs u.getLength u.reads).coverageUtr).conversionsOnTs ≤
              (runTally u (scanReads strictTCs u.getLength u.reads).tcCountUtr
                (scanReads strictTCs u.getLength u.reads).coverageUtr).coverageOnTs := by
            unfold runTally
            exact tally_foldl_le u _ _ hptw _ _ (Nat.le_refl 0)
          rw [← hrow]
          dsimp only
          refine ⟨?_, ?_, ?_, ?_⟩
          · intro h
            rw [if_pos (show (runTally u (scanReads strictTCs u.getLength u.reads).tcCountUtr
                (scanReads strictTCs u.getLength u.reads).coverageUtr).coverageOnTs > 0 by
                  exact_mod_cast h)]
            push_cast
            rfl
          · intro h
            rw [if_neg (show ¬ (runTally u (scanReads strictTCs u.getLength u.reads).tcCountUtr
                (scanReads strictTCs u.getLength u.reads).coverageUtr).coverageOnTs > 0 by
                  omega)]
          · exact (rate_bounds_nat _ _ hconv).1
          · exact (rate_bounds_nat _ _ hconv).2
      · rw [if_neg hc] at hok
        rw [Except.ok.injEq, Prod.mk.injEq] at hok
        obtain ⟨hrow, -⟩ := hok
        rw [← hrow]
        dsimp only
        refine ⟨?_, ?_, by norm_num, by norm_num⟩
        · intro h
          norm_num at h
        · intro h
          norm_num at h

theorem collapse_rate_bounds (rows : List (List String)) (outRows : List CollapseOutRow)
    (hrows : ∀ fields ∈ rows, fields.length = 14 →
      pyInt (fieldAt fields 10) ≤ pyInt (fieldAt fields 9))
    (hok : (collapse rows).1 = Except.ok outRows) :
    ∀ r ∈ outRows,
      (r.coverageOnTs > 0 →
        r.conversionRate = (r.conversionsOnTs : ℚ) / (r.coverageOnTs : ℚ)) ∧
        (r.coverageOnTs = 0 → r.conversionRate = 0) ∧
        0 ≤ r.conversionRate ∧ r.conversionRate ≤ 1 := by
  unfold collapse collapseEmit at hok
  dsimp only at hok
  by_cases hemp : (sortByGene (collapseScan rows).1).isEmpty
  · rw [if_pos hemp] at hok
    rw [Except.ok.injEq] at hok
    intro r hr
    rw [← hok] at hr
    exact absurd hr (by simp)
  · rw [if_neg hemp] at hok
    by_cases hz : (collapseScan rows).2 = 0
    · rw [if_pos hz] at hok
      exact absurd hok (by simp)
    · rw [if_neg hz] at hok
      rw [Except.ok.injEq] at hok
      intro r hr
      rw [← hok] at hr
      rcases List.mem_map.mp hr with ⟨e, he, hre⟩
      have hinv := collapseScan_rate_inv rows hrows e ((mem_sortByGene e _).mp he)
      rw [← hre]
      unfold mkOutRow
      dsimp only
      refine ⟨?_, ?_, ?_, ?_⟩
      · intro h
        rw [if_pos h]
      · intro h
        rw [if_neg (by omega)]
      · exact (rate_bounds_int _ _ hinv.1 hinv.2).1
      · exact (rate_bounds_int _ _ hinv.1 hinv.2).2

/-- C5 (amended): for every emitted interval summary — under the precondition
that each read's conversion mismatches sit at pairwise distinct positions
inside the read's aligned span — and for every gene roll-up row computed from
input rows whose `conversionsOnTs` does not exceed their `coverageOnTs` (as
rows produced by the interval stage satisfy), `conversionRate` equals
`conversionsOnTs / coverageOnTs` whenever `coverageOnTs > 0`, equals 0 when
`coverageOnTs = 0`, and always lies in `[0, 1]`. -/
theorem C5_conversionRate_bounds :
    (∀ (strictTCs : Bool) (readNumber : Nat) (refs : RefFile) (u : Utr)
        (row : SlamSeqInterval) (upd : List (String × ℚ)),
      (∀ r ∈ u.reads, ReadWellFormed r) →
      processUtr strictTCs readNumber refs u = Except.ok (row, upd) →
      (row.coverageOnTs > 0 →
        row.conversionRate = (row.conversionsOnTs : ℚ) / (row.coverageOnTs : ℚ)) ∧
        (row.coverageOnTs = 0 → row.conversionRate = 0) ∧
        0 ≤ row.conversionRate ∧ row.conversionRate ≤ 1) ∧
      (∀ (rows : List (List String)) (outRows : List CollapseOutRow),
        (∀ fields ∈ rows, fields.length = 14 →
          pyInt (fieldAt fields 10) ≤ pyInt (fieldAt fields 9)) →
        (collapse rows).1 = Except.ok outRows →
        ∀ r ∈ outRows,
          (r.coverageOnTs > 0 →
            r.conversionRate = (r.conversionsOnTs : ℚ) / (r.coverageOnTs : ℚ)) ∧
            (r.coverageOnTs = 0 → r.conversionRate = 0) ∧
            0 ≤ r.conversionRate ∧ r.conversionRate ≤ 1) :=
  ⟨fun strictTCs readNumber refs u row upd hW hok =>
      processUtr_ok_rate strictTCs readNumber refs u row upd hW hok,
    fun rows outRows hrows hok => collapse_rate_bounds rows outRows hrows hok⟩

/-- Witness for C5: concrete bounds for an emitted interval row and for a
roll-up row. -/
theorem C5_conversionRate_bounds_witness :
    (0 ≤ c5wrow.conversionRate ∧ c5wrow.conversionRate ≤ 1) ∧
      (0 ≤ (mkOutRow 2 ("gw", bumpAgg c5wfields zeroAgg)).conversionRate ∧
        (mkOutRow 2 ("gw", bumpAgg c5wfields zeroAgg)).conversionRate ≤ 1) := by
  have h1 := C5_conversionRate_bounds.1 false 5 [] c5wutr c5wrow [] (by decide) (by decide)
  have h2 := C5_conversionRate_bounds.2 [c5wfields]
    [mkOutRow 2 ("gw", bumpAgg c5wfields zeroAgg)] (by decide) (by rfl)
  have h3 := h2 (mkOutRow 2 ("gw", bumpAgg c5wfields zeroAgg)) (by simp)
  exact ⟨⟨h1.2.2.1, h1.2.2.2⟩, ⟨h3.2.2.1, h3.2.2.2⟩⟩

/-- C6 counterexample: bedgraph rows are space-separated, not tab-separated,
and a `+`-strand entry whose chromosome name contains `:` (legal in real
references, e.g. HLA contigs) is routed to the *minus* file with garbled
columns, because the strand is recovered as the third `:`-field of the
encoded key. -/
theorem C6_counterexample :
    finalizeBedgraph [("chr1:5:+", 0), ("HLA:1:7:+", 0)] =
        (["chr1 5 6 0"], ["HLA 1 2 0"]) ∧
      mkBedgraphKey "HLA:1" 7 "+" = "HLA:1:7:+" ∧
      "chr1 5 6 0" ≠ "chr1" ++ "\t" ++ "5" ++ "\t" ++ "6" ++ "\t" ++ "0" := by
  decide

theorem natToDigitsAux_append (fuel n : Nat) (acc : List Char) :
    natToDigitsAux fuel n acc = natToDigitsAux fuel n [] ++ acc := by
  induction fuel generalizing n acc with
  | zero => rfl
  | succ f ih =>
      rw [natToDigitsAux, natToDigitsAux]
      split_ifs with h
      · rfl
      · rw [ih (n / 10) (Char.ofNat (48 + n % 10) :: acc),
          ih (n / 10) [Char.ofNat (48 + n % 10)], List.append_assoc]
        rfl

theorem digit_char_ne_colon (d : Nat) (hd : d < 10) : Char.ofNat (48 + d) ≠ ':' := by
  interval_cases d <;> decide

theorem digit_char_toNat (d : Nat) (hd : d < 10) : (Char.ofNat (48 + d)).toNat = 48 + d := by
  interval_cases d <;> decide

theorem colon_not_mem_natToDigitsAux (fuel : Nat) :
    ∀ (n : Nat) (acc : List Char), ':' ∉ acc → ':' ∉ natToDigitsAux fuel n acc := by
  induction fuel with
  | zero => exact fun n acc h => h
  | succ f ih =>
      intro n acc hacc
      rw [natToDigitsAux]
      split_ifs with h
      · intro hm
        rcases List.mem_cons.mp hm with h1 | h2
        · exact digit_char_ne_colon (n % 10) (Nat.mod_lt n (by norm_num)) h1.symm
        · exact hacc h2
      · apply ih
        intro hm
        rcases List.mem_cons.mp hm with h1 | h2
        · exact digit_char_ne_colon (n % 10) (Nat.mod_lt n (by norm_num)) h1.symm
        · exact hacc h2

theorem colon_not_mem_natToDigits (n : Nat) : ':' ∉ natToDigits n :=
  colon_not_mem_natToDigitsAux (n + 1) n [] (by simp)

theorem natToDigits_foldl (fuel : Nat) :
    ∀ n : Nat, n < 10 ^ fuel → ∀ a : Nat,
      (natToDigitsAux fuel n []).foldl (fun a c => a * 10 + (c.toNat - 48)) a =
        a * 10 ^ (natToDigitsAux fuel n []).length + n := by
  induction fuel with
  | zero =>
      intro n hn a
      have : n = 0 := by omega
      subst this
      simp [natToDigitsAux]
  | succ f ih =>
      intro n hn a
      rw [natToDigitsAux]
      split_ifs with h
      · simp only [List.foldl_cons, List.foldl_nil, List.length_cons, List.length_nil]
        rw [digit_char_toNat (n % 10) (Nat.mod_lt n (by norm_num))]
        have : n % 10 = n := Nat.mod_eq_of_lt h
        simp [this]
      · rw [natToDigitsAux_append]
        rw [List.foldl_append]
        have hdiv : n / 10 < 10 ^ f := by
          rw [Nat.div_lt_iff_lt_mul (by norm_num)]
          calc n < 10 ^ (f + 1) := hn
            _ = 10 ^ f * 10 := by rw [pow_succ]
        rw [ih (n / 10) hdiv a]
        simp only [List.foldl_cons, List.foldl_nil, List.length_append, List.length_cons,
          List.length_nil]
        rw [digit_char_toNat (n % 10) (Nat.mod_lt n (by norm_num))]
        have e2 : n / 10 * 10 + n % 10 = n := by omega
        have e1 : (a * 10 ^ (natToDigitsAux f (n / 10) []).length + n / 10) * 10 +
            (48 + n % 10 - 48) =
            a * (10 ^ (natToDigitsAux f (n / 10) []).length * 10) +
              (n / 10 * 10 + n % 10) := by
          have : 48 + n % 10 - 48 = n % 10 := by omega
          rw [this]
          ring
        rw [e1, e2, ← pow_succ]

theorem pyParseNat_natToDigits (n : Nat) : pyParseNat (natToDigits n) = n := by
  unfold pyParseNat natToDigits
  have hn : n < 10 ^ (n + 1) := by
    calc n < 10 ^ n := Nat.lt_pow_self (by norm_num) n
      _ ≤ 10 ^ (n + 1) := Nat.pow_le_pow_right (by norm_num) (Nat.le_succ n)
  rw [natToDigits_foldl (n + 1) n hn 0]
  simp

theorem splitOnChar_ne_nil (c : Char) (l : List Char) : splitOnChar c l ≠ [] := by
  cases l with
  | nil => simp [splitOnChar]
  | cons x xs =>
      rw [splitOnChar]
      rcases h : splitOnChar c xs with _ | ⟨y, ys⟩
      · simp
      · split_ifs <;> simp

theorem splitOnChar_no_c (c : Char) (l : List Char) (h : c ∉ l) : splitOnChar c l = [l] := by
  induction l with
  | nil => rfl
  | cons x xs ih =>
      rw [splitOnChar]
      have hx : ¬ x = c := by
        intro hc
        exact h (by simp [hc])
      rw [ih (fun hc => h (by simp [hc]))]
      simp [hx]

theorem splitOnChar_append (c : Char) (l1 l2 : List Char) (h : c ∉ l1) :
    splitOnChar c (l1 ++ c :: l2) = l1 :: splitOnChar c l2 := by
  induction l1 with
  | nil =>
      simp only [List.nil_append]
      rw [splitOnChar]
      rcases hs : splitOnChar c l2 with _ | ⟨y, ys⟩
      · exact absurd hs (splitOnChar_ne_nil c l2)
      · simp
  | cons x xs ih =>
      have hx : ¬ x = c := by
        intro hc
        exact h (by simp [hc])
      simp only [List.cons_append]
      rw [splitOnChar, ih (fun hc => h (by simp [hc]))]
      simp [hx]

theorem intToStr_nonneg_data (pos : Int) (h : 0 ≤ pos) :
    (intToStr pos).data = natToDigits pos.toNat := by
  unfold intToStr
  rw [if_neg (by omega)]

theorem pySplitColon_mkKey (chrom : String) (pos : Int) (strand : String)
    (hc : ':' ∉ chrom.data) (hs : ':' ∉ strand.data) (hp : 0 ≤ pos) :
    pySplitColon (mkBedgraphKey chrom pos strand) = [chrom, intToStr pos, strand] := by
  unfold pySplitColon mkBedgraphKey
  have hdata : (chrom ++ ":" ++ intToStr pos ++ ":" ++ strand).data =
      chrom.data ++ ':' :: ((intToStr pos).data ++ ':' :: strand.data) := by
    rw [String.data_append, String.data_append, String.data_append, String.data_append]
    simp [List.append_assoc]
  rw [hdata]
  rw [splitOnChar_append ':' chrom.data _ hc]
  rw [splitOnChar_append ':' (intToStr pos).data _ (by
    rw [intToStr_nonneg_data pos hp]
    exact colon_not_mem_natToDigits pos.toNat)]
  rw [splitOnChar_no_c ':' strand.data hs]
  simp only [List.map_cons, List.map_nil]

theorem renderBedLine_mkKey (chrom : String) (pos : Int) (strand : String)
    (hp : 0 ≤ pos) (rate : ℚ) :
    renderBedLine [chrom, intToStr pos, strand] rate =
      chrom ++ " " ++ intToStr pos ++ " " ++ intToStr (pos + 1) ++ " " ++ ratToStr rate := by
  unfold renderBedLine
  simp only [List.getD_cons_zero, List.getD_cons_succ]
  have h1 : pyParseNat (intToStr pos).data = pos.toNat := by
    rw [intToStr_nonneg_data pos hp]
    exact pyParseNat_natToDigits pos.toNat
  rw [h1]
  have h2 : ((pos.toNat : Int) + 1) = pos + 1 := by omega
  rw [h2]

theorem finalize_foldl (acc : List (String × ℚ)) (p m : List String) :
    acc.foldl
        (fun fs e =>
          let pd := pySplitColon e.1
          let line := renderBedLine pd e.2
          if pd.getD 2 "" = "+" then (fs.1 ++ [line], fs.2) else (fs.1, fs.2 ++ [line]))
        (p, m) =
      (p ++ (acc.filter (fun e => decide ((pySplitColon e.1).getD 2 "" = "+"))).map
          (fun e => renderBedLine (pySplitColon e.1) e.2),
        m ++ (acc.filter (fun e => ! decide ((pySplitColon e.1).getD 2 "" = "+"))).map
          (fun e => renderBedLine (pySplitColon e.1) e.2)) := by
  induction acc generalizing p m with
  | nil => simp
  | cons e es ih =>
      simp only [List.foldl_cons]
      by_cases h : (pySplitColon e.1).getD 2 "" = "+"
      · rw [if_pos h, ih, List.filter_cons, List.filter_cons,
          if_pos (show decide ((pySplitColon e.1).getD 2 "" = "+") = true from
            decide_eq_true h),
          if_neg (show ¬ (! decide ((pySplitColon e.1).getD 2 "" = "+")) = true by
            simpa using h)]
        simp
      · rw [if_neg h, ih, List.filter_cons, List.filter_cons,
          if_neg (show ¬ decide ((pySplitColon e.1).getD 2 "" = "+") = true by
            simpa using h),
          if_pos (show (! decide ((pySplitColon e.1).getD 2 "" = "+")) = true by
            simpa using h)]
        simp

theorem finalizeBedgraph_eq (acc : List (String × ℚ)) :
    finalizeBedgraph acc =
      ((acc.filter (fun e => decide ((pySplitColon e.1).getD 2 "" = "+"))).map
          (fun e => renderBedLine (pySplitColon e.1) e.2),
        (acc.filter (fun e => ! decide ((pySplitColon e.1).getD 2 "" = "+"))).map
          (fun e => renderBedLine (pySplitColon e.1) e.2)) := by
  unfold finalizeBedgraph
  rw [finalize_foldl acc [] []]
  simp

theorem bgInsert_keysNodup (acc : List (String × ℚ)) (k : String) (v : ℚ)
    (h : keysNodup acc) : keysNodup (bgInsert acc k v) := by
  unfold bgInsert
  unfold keysNodup at h ⊢
  split_ifs with hany
  · have heq : (acc.map (fun e => if e.1 = k then (k, v) else e)).map Prod.fst =
        acc.map Prod.fst := by
      rw [List.map_map]
      apply List.map_congr_left
      intro e _
      by_cases hk : e.1 = k
      · simp [hk]
      · simp [hk]
    rw [heq]
    exact h
  · rw [List.map_append]
    simp only [List.map_cons, List.map_nil]
    have hk : k ∉ acc.map Prod.fst := by
      intro hm
      rcases List.mem_map.mp hm with ⟨e, he, hek⟩
      exact hany (List.any_eq_true.mpr ⟨e, he, by simp [hek]⟩)
    rw [List.nodup_append]
    refine ⟨h, by simp, ?_⟩
    intro x hx
    simp only [List.mem_singleton]
    intro hc
    subst hc
    exact hk hx

theorem find_map_overwrite (k : String) (v : ℚ) (acc : List (String × ℚ))
    (hany : (acc.any fun e => e.1 = k) = true) :
    (acc.map (fun e => if e.1 = k then (k, v) else e)).find? (fun e => decide (e.1 = k)) =
      some (k, v) := by
  induction acc with
  | nil => simp at hany
  | cons e es ih =>
      simp only [List.map_cons]
      by_cases hk : e.1 = k
      · rw [if_pos hk, List.find?_cons_of_pos _ (by simp)]
      · rw [if_neg hk, List.find?_cons_of_neg _ (by simp [hk])]
        apply ih
        rcases List.any_eq_true.mp hany with ⟨x, hx, hxk⟩
        rcases List.mem_cons.mp hx with h1 | h2
        · subst h1
          simp only [decide_eq_true_eq] at hxk
          exact absurd hxk hk
        · exact List.any_eq_true.mpr ⟨x, h2, hxk⟩

theorem bgLookup_bgInsert (acc : List (String × ℚ)) (k : String) (v : ℚ) :
    bgLookup (bgInsert acc k v) k = some v := by
  unfold bgInsert bgLookup
  split_ifs with hany
  · rw [find_map_overwrite k v acc hany]
    rfl
  · have hnone : acc.find? (fun e => decide (e.1 = k)) = none := by
      rw [List.find?_eq_none]
      intro x hx
      simp only [decide_eq_true_eq]
      intro hc
      exact hany (List.any_eq_true.mpr ⟨x, hx, by simp [hc]⟩)
    rw [find?_append_none _ _ _ hnone, List.find?_cons_of_pos _ (by simp)]
    rfl

theorem bg_foldl_nodup (updates : List (String × ℚ)) :
    ∀ acc : List (String × ℚ), keysNodup acc →
      keysNodup (updates.foldl (fun a kv => bgInsert a kv.1 kv.2) acc) := by
  induction updates with
  | nil => exact fun acc h => h
  | cons kv rest ih =>
      intro acc h
      simp only [List.foldl_cons]
      exact ih _ (bgInsert_keysNodup acc kv.1 kv.2 h)

theorem runUtrsAux_keysNodup (strictTCs : Bool) (readNumber : Nat) (refs : RefFile) :
    ∀ (utrs : List Utr) (rows : List SlamSeqInterval) (acc : List (String × ℚ)),
      keysNodup acc →
      keysNodup (runUtrsAux strictTCs readNumber refs utrs rows acc).bedgraph := by
  intro utrs
  induction utrs with
  | nil => exact fun rows acc h => h
  | cons u rest ih =>
      intro rows acc h
      rw [runUtrsAux]
      cases hp : processUtr strictTCs readNumber refs u with
      | error e => exact h
      | ok p => exact ih _ _ (bg_foldl_nodup p.2 acc h)

/-- C6 (amended): the bedgraph accumulator holds at most one rate per key
(insertion keeps the keys distinct and overwriting is last-write-wins), the
whole-run accumulator has distinct keys, and finalization routes an entry by
the third `:`-field of its key — which equals the strand exactly when the
chromosome name is `:`-free — writing each row *space*-separated as
`chromosome pos pos+1 rate` to the plus file for strand `+` and to the minus
file otherwise. -/
theorem C6_bedgraph_partition :
    (∀ (acc : List (String × ℚ)) (k : String) (v : ℚ),
      (keysNodup acc → keysNodup (bgInsert acc k v)) ∧
        bgLookup (bgInsert acc k v) k = some v) ∧
      (∀ (bamV expV : String) (strictTCs : Bool) (readNumber : Nat) (refs : RefFile)
          (utrs : List Utr),
        keysNodup (computeTconversions bamV expV strictTCs readNumber refs utrs).bedgraph) ∧
      (∀ (acc : List (String × ℚ)) (chrom : String) (pos : Int) (strand : String)
          (rate : ℚ),
        ':' ∉ chrom.data → ':' ∉ strand.data → 0 ≤ pos →
        (mkBedgraphKey chrom pos strand, rate) ∈ acc →
        (strand = "+" →
          (chrom ++ " " ++ intToStr pos ++ " " ++ intToStr (pos + 1) ++ " " ++ ratToStr rate) ∈
            (finalizeBedgraph acc).1) ∧
          (¬ strand = "+" →
            (chrom ++ " " ++ intToStr pos ++ " " ++ intToStr (pos + 1) ++ " " ++
              ratToStr rate) ∈ (finalizeBedgraph acc).2)) := by
  refine ⟨?_, ?_, ?_⟩
  · intro acc k v
    exact ⟨bgInsert_keysNodup acc k v, bgLookup_bgInsert acc k v⟩
  · intro bamV expV strictTCs readNumber refs utrs
    unfold computeTconversions
    split_ifs with h
    · simp [keysNodup]
    · exact runUtrsAux_keysNodup strictTCs readNumber refs utrs [] [] (by simp [keysNodup])
  · intro acc chrom pos strand rate hc hs hp hmem
    have hsplit := pySplitColon_mkKey chrom pos strand hc hs hp
    have hline := renderBedLine_mkKey chrom pos strand hp rate
    rw [finalizeBedgraph_eq]
    constructor
    · intro hplus
      subst hplus
      dsimp only
      apply List.mem_map.mpr
      refine ⟨(mkBedgraphKey chrom pos "+", rate), ?_, ?_⟩
      · apply List.mem_filter.mpr
        refine ⟨hmem, ?_⟩
        simp [hsplit]
      · rw [hsplit]
        exact hline
    · intro hminus
      dsimp only
      apply List.mem_map.mpr
      refine ⟨(mkBedgraphKey chrom pos strand, rate), ?_, ?_⟩
      · apply List.mem_filter.mpr
        refine ⟨hmem, ?_⟩
        simp [hsplit, hminus]
      · rw [hsplit]
        exact hline

/-- Witness for C6: last-write-wins lookup on a fresh key, and concrete
routing of a plus and a minus entry into the two files. -/
theorem C6_bedgraph_partition_witness :
    bgLookup (bgInsert [] "a:1:+" 5) "a:1:+" = some 5 ∧
      ("w6" ++ " " ++ intToStr 3 ++ " " ++ intToStr 4 ++ " " ++ ratToStr 7) ∈
        (finalizeBedgraph c6wacc).1 ∧
      ("w6" ++ " " ++ intToStr 4 ++ " " ++ intToStr 5 ++ " " ++ ratToStr 9) ∈
        (finalizeBedgraph c6wacc).2 := by
  have h1 := (C6_bedgraph_partition.1 [] "a:1:+" 5).2
  have h2 := (C6_bedgraph_partition.2.2 c6wacc "w6" 3 "+" 7 (by decide) (by decide)
    (by decide) (by decide)).1 rfl
  have h3 := (C6_bedgraph_partition.2.2 c6wacc "w6" 4 "-" 9 (by decide) (by decide)
    (by decide) (by decide)).2 (by decide)
  have e2 : ((3 : Int) + 1) = 4 := by norm_num
  have e3 : ((4 : Int) + 1) = 5 := by norm_num
  rw [e2] at h2
  rw [e3] at h3
  exact ⟨h1, h2, h3⟩
